import Mathlib

/-!
Verification development for the Jarvis assistant daemon.

This file gives a shallow embedding, in Lean 4, of the parts of the source
that the specification's claims are about:

* `src/src/telegram_bot.py` — `_split_message`, `owner_only`, the callback
  handlers' owner guard;
* `src/src/db.py` — `save_message`, `has_similar_active_task`, `create_task`,
  `resolve_confidence` (the SQL is embedded as pure state transformers over a
  record of table contents; `ILIKE` is embedded as a pattern matcher with the
  `%`/`_` wildcards and the backslash escape);
* `src/src/confidence_manager.py` — `process_classification`;
* `src/src/ai_brain.py` — `_parse_classification` / `_validate_classification`
  and `ask_with_tools`;
* `src/src/telegram_listener.py` — `on_new_message`;
* `src/main.py` — `_resilient_listener`.

Python strings are embedded as `List Char` (Python's `len`, slicing and
`rfind` are all in terms of code points, as are the Lean list operations
used here).  Timestamps are embedded as `Int` minutes; machine integers in
the source are Python's unbounded `int`, so `Int`/`Nat` is exact.
-/

namespace Jarvis

/-- Python strings, embedded as lists of code points. -/
abbrev Str := List Char

/-! ## `_split_message` (src/src/telegram_bot.py lines 99-119)

`_split_message(text, max_len=4096)` splits a long message into parts,
preferring the last `"\n"` before the limit, then the last `" "`, and
hard-cutting at `max_len` when neither exists at a positive index.
`str.rfind(sub, 0, end)` returns the largest index `i < end` at which `sub`
occurs, or `-1`; the source compares the result with `<= 0`, so an
occurrence at index 0 also falls through to the next strategy. -/

/-- Largest index `i < e` (and `i < l.length`) with `l.get i = c`;
`none` when there is no such index.  Embeds Python `text.rfind(c, 0, e)`
(for a one-character needle), with `none` for Python's `-1`. -/
def rfindBefore (l : Str) (c : Char) (e : Nat) : Option Nat :=
  (List.range (min e l.length)).foldl
    (fun acc i => if l.getD i ' ' = c then some i else acc) none

/-- Python `text.lstrip("\n")`. -/
def lstripNewline (l : Str) : Str := l.dropWhile (· = '\n')

/-- The split position chosen by one iteration of the source's loop body:
last `'\n'` before `maxLen` if at a positive index, else last `' '` before
`maxLen` if at a positive index, else `maxLen` itself. -/
def splitPos (text : Str) (maxLen : Nat) : Nat :=
  match rfindBefore text '\n' maxLen with
  | some i => if i > 0 then i else
      match rfindBefore text ' ' maxLen with
      | some j => if j > 0 then j else maxLen
      | none => maxLen
  | none =>
      match rfindBefore text ' ' maxLen with
      | some j => if j > 0 then j else maxLen
      | none => maxLen

lemma rfindBefore_lt (l : Str) (c : Char) (e : Nat) :
    ∀ i, rfindBefore l c e = some i → i < e := by
  intro i h
  unfold rfindBefore at h
  suffices H : ∀ (L : List Nat) (a : Option Nat),
      (∀ j, a = some j → j < e) → (∀ j, j ∈ L → j < e) →
      ∀ j, (L.foldl (fun acc i => if l.getD i ' ' = c then some i else acc) a) = some j → j < e by
    exact H _ none (by simp) (fun j hj => lt_of_lt_of_le (List.mem_range.mp hj) (min_le_left _ _)) i h
  intro L
  induction L with
  | nil => intro a ha _ j hj; exact ha j hj
  | cons x xs ih =>
    intro a ha hmem j hj
    rw [List.foldl_cons] at hj
    refine ih _ ?_ (fun k hk => hmem k (List.mem_cons_of_mem _ hk)) j hj
    intro k hk
    by_cases hx : l.getD x ' ' = c
    · rw [if_pos hx] at hk
      cases hk
      exact hmem x (List.mem_cons_self _ _)
    · rw [if_neg hx] at hk
      exact ha k hk

lemma splitPos_pos (text : Str) (maxLen : Nat) (h : 0 < maxLen) :
    0 < splitPos text maxLen := by
  unfold splitPos
  cases hn : rfindBefore text '\n' maxLen with
  | some i =>
    by_cases hi : i > 0
    · simpa [hi]
    · simp only [hi, if_false]
      cases hs : rfindBefore text ' ' maxLen with
      | some j =>
        by_cases hj : j > 0
        · simpa [hj]
        · simp [hj]; omega
      | none => simpa
  | none =>
    cases hs : rfindBefore text ' ' maxLen with
    | some j =>
      by_cases hj : j > 0
      · simpa [hj]
      · simp [hj]; omega
    | none => simpa

lemma splitPos_le (text : Str) (maxLen : Nat) (h : 0 < maxLen) :
    splitPos text maxLen ≤ maxLen := by
  unfold splitPos
  cases hn : rfindBefore text '\n' maxLen with
  | some i =>
    have hi' := rfindBefore_lt text '\n' maxLen i hn
    by_cases hi : i > 0
    · simp only [hi, if_true]; omega
    · simp only [hi, if_false]
      cases hs : rfindBefore text ' ' maxLen with
      | some j =>
        have hj' := rfindBefore_lt text ' ' maxLen j hs
        by_cases hj : j > 0
        · simp only [hj, if_true]; omega
        · simp [hj]
      | none => simp
  | none =>
    cases hs : rfindBefore text ' ' maxLen with
    | some j =>
      have hj' := rfindBefore_lt text ' ' maxLen j hs
      by_cases hj : j > 0
      · simp only [hj, if_true]; omega
      · simp [hj]
    | none => simp

/-- The loop of `_split_message`: on each iteration, if the remaining text
fits it becomes the final part, otherwise the text is split at `splitPos`
and the remainder (with leading newlines stripped) is processed next. -/
def splitLoop (text : Str) (maxLen : Nat) (hpos : 0 < maxLen) : List Str :=
  if h0 : text = [] then []
  else if h1 : text.length ≤ maxLen then [text]
  else
    text.take (splitPos text maxLen) ::
      splitLoop (lstripNewline (text.drop (splitPos text maxLen))) maxLen hpos
termination_by text.length
decreasing_by
  have hp : 0 < splitPos text maxLen := splitPos_pos text maxLen hpos
  have hd : (lstripNewline (text.drop (splitPos text maxLen))).length
      ≤ (text.drop (splitPos text maxLen)).length := (List.dropWhile_sublist _).length_le
  have hl : (text.drop (splitPos text maxLen)).length
      = text.length - splitPos text maxLen := List.length_drop _ _
  omega

/-- `_split_message(text, max_len)`: texts that already fit are returned
whole as a single part (the source's leading
`if len(text) <= max_len: return [text]`), otherwise the loop runs. -/
def splitMessage (text : Str) (maxLen : Nat := 4096) (hpos : 0 < maxLen := by decide) : List Str :=
  if text.length ≤ maxLen then [text] else splitLoop text maxLen hpos

lemma splitLoop_length_le (text : Str) (maxLen : Nat) (hpos : 0 < maxLen) :
    ∀ p ∈ splitLoop text maxLen hpos, p.length ≤ maxLen := by
  by_cases h0 : text = []
  · rw [splitLoop]; simp [h0]
  · by_cases h1 : text.length ≤ maxLen
    · rw [splitLoop, dif_neg h0, dif_pos h1]
      intro p hp; simp at hp; subst hp; exact h1
    · rw [splitLoop, dif_neg h0, dif_neg h1]
      intro p hp
      rcases List.mem_cons.mp hp with hhd | htl
      · subst hhd
        have h2 := splitPos_le text maxLen hpos
        have h3 : (text.take (splitPos text maxLen)).length ≤ splitPos text maxLen := by
          rw [List.length_take]; omega
        omega
      · exact splitLoop_length_le _ maxLen hpos p htl
termination_by text.length
decreasing_by
  have hp : 0 < splitPos text maxLen := splitPos_pos text maxLen hpos
  have hd : (lstripNewline (text.drop (splitPos text maxLen))).length
      ≤ (text.drop (splitPos text maxLen)).length := (List.dropWhile_sublist _).length_le
  have hl : (text.drop (splitPos text maxLen)).length
      = text.length - splitPos text maxLen := List.length_drop _ _
  omega

lemma rfindBefore_none_of_not_mem (l : Str) (c : Char) (e : Nat) (h : c ∉ l) :
    rfindBefore l c e = none := by
  unfold rfindBefore
  suffices H : ∀ (L : List Nat), (∀ j ∈ L, j < l.length) →
      L.foldl (fun acc i => if l.getD i ' ' = c then some i else acc) none = none by
    exact H _ (fun j hj => lt_of_lt_of_le (List.mem_range.mp hj) (min_le_right _ _))
  intro L
  induction L with
  | nil => intro _; rfl
  | cons x xs ih =>
    intro hmem
    have hx : l.getD x ' ' ≠ c := by
      intro hc
      apply h
      have hxl : x < l.length := hmem x (List.mem_cons_self _ _)
      rw [List.getD_eq_getElem l ' ' hxl] at hc
      exact hc ▸ List.getElem_mem hxl
    rw [List.foldl_cons, if_neg hx]
    exact ih (fun j hj => hmem j (List.mem_cons_of_mem _ hj))

lemma lstripNewline_eq_self {l : Str} (h : '\n' ∉ l) : lstripNewline l = l := by
  unfold lstripNewline
  cases l with
  | nil => rfl
  | cons x xs =>
    have hx : ¬ (x = '\n') := fun hc => h (hc ▸ List.mem_cons_self _ _)
    simp [List.dropWhile_cons, hx]

/-- Hard chunking: cut into consecutive `maxLen`-blocks. -/
def hardChunks (text : Str) (maxLen : Nat) (hpos : 0 < maxLen) : List Str :=
  if h0 : text = [] then []
  else if h1 : text.length ≤ maxLen then [text]
  else
    text.take maxLen :: hardChunks (text.drop maxLen) maxLen hpos
termination_by text.length
decreasing_by
  rw [List.length_drop]
  have : text ≠ [] := h0
  have : 0 < text.length := List.length_pos.mpr this
  omega

lemma splitLoop_eq_hardChunks (text : Str) (maxLen : Nat) (hpos : 0 < maxLen)
    (hnl : '\n' ∉ text) (hsp : ' ' ∉ text) :
    splitLoop text maxLen hpos = hardChunks text maxLen hpos := by
  by_cases h0 : text = []
  · rw [splitLoop, hardChunks, dif_pos h0, dif_pos h0]
  · by_cases h1 : text.length ≤ maxLen
    · rw [splitLoop, hardChunks, dif_neg h0, dif_neg h0, dif_pos h1, dif_pos h1]
    · rw [splitLoop, hardChunks, dif_neg h0, dif_neg h0, dif_neg h1, dif_neg h1]
      have hsplit : splitPos text maxLen = maxLen := by
        unfold splitPos
        rw [rfindBefore_none_of_not_mem text '\n' maxLen hnl,
            rfindBefore_none_of_not_mem text ' ' maxLen hsp]
      rw [hsplit]
      have hd1 : '\n' ∉ text.drop maxLen := fun hc => hnl (List.mem_of_mem_drop hc)
      have hd2 : ' ' ∉ text.drop maxLen := fun hc => hsp (List.mem_of_mem_drop hc)
      rw [lstripNewline_eq_self hd1]
      rw [splitLoop_eq_hardChunks (text.drop maxLen) maxLen hpos hd1 hd2]
termination_by text.length
decreasing_by
  rw [List.length_drop]
  have : text ≠ [] := h0
  have : 0 < text.length := List.length_pos.mpr this
  omega


/-- **C10.** For every input string, `_split_message` terminates (it is a
total function in this embedding), every part it returns has length at most
4096, inputs containing no newline and no space are hard-cut into
consecutive 4096-character blocks, and every input of length at most 4096
is returned unchanged as a single part. -/
theorem C10_split_message_bounds (text : Str) :
    (∀ p ∈ splitMessage text, p.length ≤ 4096) ∧
    (text.length ≤ 4096 → splitMessage text = [text]) ∧
    ('\n' ∉ text → ' ' ∉ text →
      splitMessage text =
        if text.length ≤ 4096 then [text] else hardChunks text 4096 (by decide)) := by
  refine ⟨?_, ?_, ?_⟩
  · intro p hp
    unfold splitMessage at hp
    by_cases h : text.length ≤ 4096
    · rw [if_pos h] at hp; simp at hp; subst hp; exact h
    · rw [if_neg h] at hp; exact splitLoop_length_le _ _ _ p hp
  · intro h; unfold splitMessage; rw [if_pos h]
  · intro hnl hsp
    unfold splitMessage
    by_cases h : text.length ≤ 4096
    · rw [if_pos h, if_pos h]
    · rw [if_neg h, if_neg h]
      exact splitLoop_eq_hardChunks text 4096 (by decide) hnl hsp

/-- Witness for C10 at the concrete input `'a' * 5000` (no newline, no
space, longer than the limit). -/
theorem C10_split_message_bounds_witness :
    ('\n' ∉ (List.replicate 5000 'a' : Str)) ∧ (' ' ∉ (List.replicate 5000 'a' : Str)) ∧
    splitMessage (List.replicate 5000 'a') =
      (if (List.replicate 5000 'a' : Str).length ≤ 4096 then [(List.replicate 5000 'a' : Str)]
       else hardChunks (List.replicate 5000 'a') 4096 (by decide)) := by
  have h1 : '\n' ∉ (List.replicate 5000 'a' : Str) :=
    fun hc => absurd (List.eq_of_mem_replicate hc) (by decide)
  have h2 : ' ' ∉ (List.replicate 5000 'a' : Str) :=
    fun hc => absurd (List.eq_of_mem_replicate hc) (by decide)
  exact ⟨h1, h2, (C10_split_message_bounds _).2.2 h1 h2⟩

/-! ## Postgres `ILIKE` (used by `has_similar_active_task`, src/src/db.py 438-449)

`description ILIKE '%' || short || '%'` matches with Postgres `LIKE`
pattern semantics, case-insensitively: `%` matches any sequence, `_` any
single character, a backslash escapes the following pattern character, and
ordinary characters compare after lowercasing.  Lowercasing is embedded as
ASCII `Char.toLower`.  The matcher is phrased with `List.tails` (a leading
`%` matches iff the rest of the pattern matches some suffix of the text),
which is the usual backtracking semantics in existential form. -/

/-- Case-insensitive comparison of one pattern character with one text
character. -/
def charILike (p t : Char) : Bool := p.toLower == t.toLower

/-- Postgres `LIKE`/`ILIKE` matcher: `likeMatches pat txt` is true iff the
pattern matches the entire text.  A pattern ending in a bare escape
character is an error in Postgres; it is embedded as a non-match. -/
def likeMatches : Str → Str → Bool
  | [], ts => ts.isEmpty
  | p :: ps, ts =>
    if p = '%' then ts.tails.any (fun suf => likeMatches ps suf)
    else if p = '_' then
      match ts with
      | [] => false
      | _ :: ts' => likeMatches ps ts'
    else if p = '\\' then
      match ps with
      | [] => false
      | q :: ps' =>
        match ts with
        | [] => false
        | t :: ts' => charILike q t && likeMatches ps' ts'
    else
      match ts with
      | [] => false
      | t :: ts' => charILike p t && likeMatches ps ts'

/-- `hay ILIKE '%' || needle || '%'`. -/
def ilikeContains (hay needle : Str) : Bool :=
  likeMatches ('%' :: (needle ++ ['%'])) hay

/-- ASCII lowercasing of a whole string. -/
def lowerStr (l : Str) : Str := l.map Char.toLower

/-- A pattern character with no special meaning in a `LIKE` pattern. -/
def plainChar (c : Char) : Prop := c ≠ '%' ∧ c ≠ '_' ∧ c ≠ '\\'

lemma charILike_self (c : Char) : charILike c c = true := by
  simp [charILike]

/-- A final `'%'` matches any remaining text. -/
lemma likeMatches_percent_unfold (ps ts : Str) :
    likeMatches ('%' :: ps) ts = ts.tails.any (fun suf => likeMatches ps suf) := by
  rw [likeMatches.eq_def]
  simp

lemma likeMatches_underscore_cons (ps : Str) (t : Char) (ts : Str) :
    likeMatches ('_' :: ps) (t :: ts) = likeMatches ps ts := by
  rw [likeMatches.eq_def]
  simp

lemma likeMatches_percent_any (ts : Str) : likeMatches ['%'] ts = true := by
  rw [likeMatches_percent_unfold]
  exact List.any_eq_true.mpr ⟨[], (List.mem_tails _ _).mpr List.nil_suffix, rfl⟩

/-- Unfolding of the matcher for a plain (non-special) leading pattern
character. -/
lemma likeMatches_plain_cons (c : Char) (ps ts : Str) (hc : plainChar c) :
    likeMatches (c :: ps) ts =
      match ts with
      | [] => false
      | t :: ts' => charILike c t && likeMatches ps ts' := by
  obtain ⟨h1, h2, h3⟩ := hc
  rw [likeMatches.eq_def]
  simp only [if_neg h1, if_neg h2, if_neg h3]

/-- A leading `'%'` matches iff the rest matches some suffix. -/
lemma likeMatches_percent (ps ts : Str) :
    likeMatches ('%' :: ps) ts = true ↔ ∃ suf, suf <:+ ts ∧ likeMatches ps suf = true := by
  rw [likeMatches_percent_unfold]
  constructor
  · intro h
    rcases List.any_eq_true.mp h with ⟨suf, hmem, hm⟩
    exact ⟨suf, (List.mem_tails _ _).mp hmem, hm⟩
  · rintro ⟨suf, hsuf, hm⟩
    exact List.any_eq_true.mpr ⟨suf, (List.mem_tails _ _).mpr hsuf, hm⟩

/-- A backslash-free pattern matches itself padded by a final `'%'`:
`likeMatches (s ++ ['%']) (s ++ v) = true`. -/
lemma likeMatches_self_pad (s v : Str) (hs : ∀ c ∈ s, c ≠ '\\') :
    likeMatches (s ++ ['%']) (s ++ v) = true := by
  induction s with
  | nil => simpa using likeMatches_percent_any v
  | cons c cs ih =>
    have hc : c ≠ '\\' := hs c (List.mem_cons_self _ _)
    have ih' := ih (fun x hx => hs x (List.mem_cons_of_mem _ hx))
    by_cases hpc : c = '%'
    · subst hpc
      rw [List.cons_append, List.cons_append]
      refine (likeMatches_percent _ _).mpr ⟨cs ++ v, ?_, ih'⟩
      exact ⟨['%'], rfl⟩
    · by_cases huc : c = '_'
      · subst huc
        rw [List.cons_append, List.cons_append, likeMatches_underscore_cons]
        exact ih'
      · rw [List.cons_append, List.cons_append,
          likeMatches_plain_cons c _ _ ⟨hpc, huc, hc⟩]
        simp [charILike_self, ih']

/-- For a pattern of plain characters followed by `'%'`, matching means the
text starts with a case-insensitive copy of the pattern. -/
lemma likeMatches_plain_pad_iff (s : Str) (hs : ∀ c ∈ s, plainChar c) :
    ∀ w : Str, likeMatches (s ++ ['%']) w = true ↔
      ∃ u v, w = u ++ v ∧ lowerStr u = lowerStr s := by
  induction s with
  | nil =>
    intro w
    constructor
    · intro _
      exact ⟨[], w, rfl, rfl⟩
    · intro _
      simpa using likeMatches_percent_any w
  | cons c cs ih =>
    intro w
    have hc := hs c (List.mem_cons_self _ _)
    have ih' := ih (fun x hx => hs x (List.mem_cons_of_mem _ hx))
    rw [List.cons_append, likeMatches_plain_cons c _ _ hc]
    constructor
    · intro h
      rcases w with _ | ⟨t, ts⟩
      · simp at h
      · simp only [Bool.and_eq_true] at h
        rcases (ih' ts).mp h.2 with ⟨u, v, huv, hlow⟩
        refine ⟨t :: u, v, by simp [huv], ?_⟩
        have hct : c.toLower = t.toLower := by
          have h1 := h.1
          simpa [charILike] using h1
        simp only [lowerStr, List.map_cons, List.cons.injEq]
        exact ⟨hct.symm, hlow⟩
    · rintro ⟨u, v, huv, hlow⟩
      rcases u with _ | ⟨x, xs⟩
      · exact absurd hlow (by simp [lowerStr])
      · subst huv
        simp only [lowerStr, List.map_cons, List.cons.injEq] at hlow
        simp only [List.cons_append]
        have h1 : charILike c x = true := by
          simp [charILike, hlow.1]
        have h2 : likeMatches (cs ++ ['%']) (xs ++ v) = true :=
          (ih' (xs ++ v)).mpr ⟨xs, v, rfl, hlow.2⟩
        simp [h1, h2]

/-- For a backslash/wildcard-free needle, `ILIKE '%needle%'` is exactly
case-insensitive substring containment (against the full haystack). -/
lemma ilikeContains_iff_substr (hay needle : Str) (h : ∀ c ∈ needle, plainChar c) :
    ilikeContains hay needle = true ↔ lowerStr needle <:+: lowerStr hay := by
  unfold ilikeContains
  rw [likeMatches_percent]
  constructor
  · rintro ⟨suf, hsuf, hm⟩
    rcases (likeMatches_plain_pad_iff needle h suf).mp hm with ⟨u, v, huv, hlow⟩
    rcases hsuf with ⟨pre, hpre⟩
    refine ⟨lowerStr pre, lowerStr v, ?_⟩
    calc lowerStr pre ++ lowerStr needle ++ lowerStr v
        = lowerStr pre ++ lowerStr u ++ lowerStr v := by rw [hlow]
      _ = lowerStr (pre ++ (u ++ v)) := by
          simp [lowerStr, List.map_append, List.append_assoc]
      _ = lowerStr hay := by rw [← huv, hpre]
  · rintro ⟨a, b, hab⟩
    have hlen : a.length + (needle.length + b.length) = hay.length := by
      have hc := congrArg List.length hab
      simpa [lowerStr, List.length_append] using hc
    set pre := hay.take a.length with hpre
    set rest := hay.drop a.length with hrest
    set mid := rest.take needle.length with hmid
    set suf := rest.drop needle.length with hsuf
    have hdecomp : hay = pre ++ mid ++ suf := by
      rw [hpre, hmid, hsuf, hrest]
      simp
    have hlowdecomp : lowerStr hay =
        lowerStr pre ++ lowerStr mid ++ lowerStr suf := by
      rw [hdecomp, lowerStr]
      simp [List.map_append, lowerStr]
    have hlenpre : pre.length = a.length := by
      rw [hpre, List.length_take]
      omega
    have hlenmid : mid.length = needle.length := by
      rw [hmid, hrest, List.length_take, List.length_drop]
      omega
    have hcmp : a ++ (lowerStr needle ++ b) =
        lowerStr pre ++ (lowerStr mid ++ lowerStr suf) := by
      rw [← List.append_assoc, hab, hlowdecomp, List.append_assoc]
    have hfst : a = lowerStr pre ∧ lowerStr needle ++ b = lowerStr mid ++ lowerStr suf := by
      have hla : a.length = (lowerStr pre).length := by
        simp [lowerStr, hlenpre]
      exact List.append_inj hcmp hla
    have hsnd : lowerStr needle = lowerStr mid ∧ b = lowerStr suf := by
      have hlm : (lowerStr needle).length = (lowerStr mid).length := by
        simp [lowerStr, hlenmid]
      exact List.append_inj hfst.2 hlm
    refine ⟨mid ++ suf, ⟨pre, by rw [hdecomp]; simp⟩, ?_⟩
    exact (likeMatches_plain_pad_iff needle h (mid ++ suf)).mpr
      ⟨mid, suf, rfl, hsnd.1.symm⟩

/-! ## Task store (src/src/db.py)

`tasks` rows, with the columns the embedded operations read or write.  The
store is embedded as the list of rows plus the id sequence; SQL `INSERT`,
`UPDATE` and `EXISTS` queries become list operations.  The row carries the
full column set of the spec's Task entity; the db.py `create_task`
populates only its own parameters, the rest keep their column defaults. -/

/-- Python `str.strip()`: drop whitespace from both ends. -/
def pyStrip (l : Str) : Str :=
  ((l.dropWhile Char.isWhitespace).reverse.dropWhile Char.isWhitespace).reverse

lemma pyStrip_substr (l : Str) : ∃ u v, l = u ++ pyStrip l ++ v := by
  obtain ⟨u, hu⟩ := List.dropWhile_suffix (l := l) (p := Char.isWhitespace)
  obtain ⟨w, hw⟩ :=
    List.dropWhile_suffix (l := (l.dropWhile Char.isWhitespace).reverse) (p := Char.isWhitespace)
  refine ⟨u, w.reverse, ?_⟩
  have hm : l.dropWhile Char.isWhitespace = pyStrip l ++ w.reverse := by
    unfold pyStrip
    have hr := congrArg List.reverse hw
    simpa [List.reverse_append] using hr.symm
  calc l = u ++ l.dropWhile Char.isWhitespace := hu.symm
    _ = u ++ (pyStrip l ++ w.reverse) := by rw [hm]
    _ = u ++ pyStrip l ++ w.reverse := by rw [List.append_assoc]

inductive TaskStatus where
  | active
  | done
  | cancelled
deriving DecidableEq, Repr

/-- The spec's recurrence values (`daily`, `weekly`, `monthly`). -/
inductive Recur where
  | daily
  | weekly
  | monthly
deriving DecidableEq, Repr

/-- One row of the `tasks` table. -/
structure Task where
  id : Nat
  ttype : Str
  description : Str
  who : Option Str := none
  deadline : Option Int := none
  remindAt : Option Int := none
  recurrence : Option Recur := none
  confidence : Int := 100
  source : Option Str := none
  sourceMsgId : Option Nat := none
  chatId : Option Int := none
  senderId : Option Int := none
  senderName : Option Str := none
  account : Option Str := none
  trackCompletion : Bool := false
  status : TaskStatus := .active
  completedAt : Option Int := none
deriving DecidableEq, Repr

/-- The `tasks` table with its id sequence. -/
structure TasksDB where
  tasks : List Task := []
  nextTaskId : Nat := 1
deriving DecidableEq, Repr

/-- `has_similar_active_task` (src/src/db.py 438-449): the candidate's
first 50 characters, stripped, are matched with
`description ILIKE '%' || short || '%'` against every active task's full
description; an empty stripped prefix short-circuits to `False`. -/
def hasSimilarActiveTask (tasks : List Task) (description : Str) : Bool :=
  if pyStrip (description.take 50) = [] then false
  else tasks.any (fun t =>
    decide (t.status = TaskStatus.active) &&
      ilikeContains t.description (pyStrip (description.take 50)))

/-- `create_task` (src/src/db.py 452-477): dedup against active tasks, then
insert; returns the new id, or `none` on a duplicate. -/
def createTask (db : TasksDB) (taskType description : Str) (who : Option Str)
    (deadline : Option Int) (confidence : Int) (source : Option Str)
    (sourceMsgId : Option Nat) (chatId : Option Int) : TasksDB × Option Nat :=
  if hasSimilarActiveTask db.tasks description then (db, none)
  else
    let t : Task := { id := db.nextTaskId, ttype := taskType, description := description,
                      who := who, deadline := deadline, confidence := confidence,
                      source := source, sourceMsgId := sourceMsgId, chatId := chatId }
    ({ tasks := db.tasks ++ [t], nextTaskId := db.nextTaskId + 1 }, some db.nextTaskId)

/-- The duplicate rule as claim C2 words it (a definition following the
claim, for comparison with the source's `hasSimilarActiveTask`): some
active task's first ~50 characters of description contain, or are contained
by, the candidate's first ~50 characters, case-insensitively. -/
def claimedSimilarRule (tasks : List Task) (description : Str) : Bool :=
  let cand := lowerStr (description.take 50)
  tasks.any (fun t =>
    decide (t.status = TaskStatus.active) &&
      (let d := lowerStr (t.description.take 50)
       decide (d <:+: cand) || decide (cand <:+: d)))

/-- A stripped 50-character prefix occurs in its own description, so the
`ILIKE` pattern built from it matches the description (when the prefix is
free of the escape character). -/
lemma ilikeContains_strip_self (description : Str)
    (hb : ∀ c ∈ pyStrip (description.take 50), c ≠ '\\') :
    ilikeContains description (pyStrip (description.take 50)) = true := by
  obtain ⟨u, v, huv⟩ := pyStrip_substr (description.take 50)
  unfold ilikeContains
  refine (likeMatches_percent _ _).mpr
    ⟨pyStrip (description.take 50) ++ (v ++ description.drop 50), ⟨u, ?_⟩,
      likeMatches_self_pad _ _ hb⟩
  have hassoc : u ++ (pyStrip (description.take 50) ++ (v ++ description.drop 50))
      = (u ++ pyStrip (description.take 50) ++ v) ++ description.drop 50 := by
    simp [List.append_assoc]
  rw [hassoc, ← huv, List.take_append_drop]

/-- **C2, counterexample.** The claim's duplicate rule (symmetric
containment between the first ~50 characters of the existing and candidate
descriptions) disagrees with the source: with one active task `"ab"` and
candidate `"abc"`, the claimed rule reports a duplicate, but
`has_similar_active_task` does not (it checks only whether the candidate's
prefix occurs inside the stored description), so `create_task` inserts a
second task.  Moreover the claim's consequence fails as stated "for every
description": two `create_task` calls with the (identical) empty
description insert two tasks, because an empty stripped prefix
short-circuits the dedup check. -/
theorem C2_counterexample :
    claimedSimilarRule
        [{ id := 1, ttype := ['t','a','s','k'], description := ['a','b'] }]
        ['a','b','c'] = true ∧
    hasSimilarActiveTask
        [{ id := 1, ttype := ['t','a','s','k'], description := ['a','b'] }]
        ['a','b','c'] = false ∧
    (createTask
        { tasks := [{ id := 1, ttype := ['t','a','s','k'], description := ['a','b'] }],
          nextTaskId := 2 }
        ['t','a','s','k'] ['a','b','c'] none none 100 none none none).1.tasks.length = 2 ∧
    (createTask
        (createTask { tasks := [], nextTaskId := 1 }
          ['t','a','s','k'] [] none none 100 none none none).1
        ['t','a','s','k'] [] none none 100 none none none).1.tasks.length = 2 := by
  decide

/-- **C2, amended.** `create_task` treats a candidate as a duplicate
exactly when the candidate's first 50 characters, stripped of surrounding
whitespace, are nonempty and occur (case-insensitively, as an `ILIKE`
pattern — plain substring containment when the prefix has no `%`, `_` or
backslash) inside some **active** task's **full** description; in that case
insertion is skipped; and two successive `create_task` calls with identical
descriptions create exactly one task, provided the stripped 50-character
prefix is nonempty and free of the `ILIKE` escape character. -/
theorem C2_create_task_dedup_amended (db : TasksDB) (taskType description : Str)
    (who : Option Str) (deadline : Option Int) (confidence : Int)
    (source : Option Str) (sourceMsgId : Option Nat) (chatId : Option Int) :
    ((∀ c ∈ pyStrip (description.take 50), plainChar c) →
      (hasSimilarActiveTask db.tasks description = true ↔
        pyStrip (description.take 50) ≠ [] ∧
        ∃ t, t ∈ db.tasks ∧ t.status = TaskStatus.active ∧
          lowerStr (pyStrip (description.take 50)) <:+: lowerStr t.description)) ∧
    (hasSimilarActiveTask db.tasks description = true →
      createTask db taskType description who deadline confidence source sourceMsgId chatId
        = (db, none)) ∧
    (hasSimilarActiveTask db.tasks description = false →
      (createTask db taskType description who deadline confidence source sourceMsgId
          chatId).1.tasks.length = db.tasks.length + 1) ∧
    (pyStrip (description.take 50) ≠ [] →
      (∀ c ∈ pyStrip (description.take 50), c ≠ '\\') →
      createTask
          (createTask db taskType description who deadline confidence source sourceMsgId
            chatId).1
          taskType description who deadline confidence source sourceMsgId chatId
        = ((createTask db taskType description who deadline confidence source sourceMsgId
            chatId).1, none)) := by
  refine ⟨?_, ?_, ?_, ?_⟩
  · intro hplain
    constructor
    · intro h
      unfold hasSimilarActiveTask at h
      by_cases hshort : pyStrip (description.take 50) = []
      · rw [if_pos hshort] at h
        exact absurd h (by simp)
      · rw [if_neg hshort] at h
        rcases List.any_eq_true.mp h with ⟨t, ht, hb⟩
        simp only [Bool.and_eq_true, decide_eq_true_eq] at hb
        exact ⟨hshort, t, ht, hb.1,
          (ilikeContains_iff_substr t.description _ hplain).mp hb.2⟩
    · rintro ⟨hne, t, ht, hstat, hinf⟩
      unfold hasSimilarActiveTask
      rw [if_neg hne]
      refine List.any_eq_true.mpr ⟨t, ht, ?_⟩
      simp only [Bool.and_eq_true, decide_eq_true_eq]
      exact ⟨hstat, (ilikeContains_iff_substr t.description _ hplain).mpr hinf⟩
  · intro h
    unfold createTask
    rw [if_pos h]
  · intro h
    unfold createTask
    rw [if_neg (by simp [h])]
    simp
  · intro hne hb
    by_cases h1 : hasSimilarActiveTask db.tasks description = true
    · have hfst : createTask db taskType description who deadline confidence source
          sourceMsgId chatId = (db, none) := by
        unfold createTask
        rw [if_pos h1]
      rw [hfst]
      unfold createTask
      rw [if_pos h1]
    · have h1' : hasSimilarActiveTask db.tasks description = false := by
        simpa using h1
      set db1 := (createTask db taskType description who deadline confidence source
        sourceMsgId chatId).1 with hdb1
      have hfst : ∃ t, db1.tasks = db.tasks ++ [t] ∧
          t.status = TaskStatus.active ∧ t.description = description := by
        rw [hdb1]
        unfold createTask
        rw [if_neg h1]
        exact ⟨_, rfl, rfl, rfl⟩
      obtain ⟨t, htasks, hstat, hdesc⟩ := hfst
      have hsim : hasSimilarActiveTask db1.tasks description = true := by
        rw [htasks]
        unfold hasSimilarActiveTask
        rw [if_neg hne]
        refine List.any_eq_true.mpr
          ⟨t, List.mem_append_right _ (List.mem_singleton.mpr rfl), ?_⟩
        simp only [Bool.and_eq_true, decide_eq_true_eq]
        refine ⟨hstat, ?_⟩
        rw [hdesc]
        exact ilikeContains_strip_self description hb
      show createTask db1 taskType description who deadline confidence source
        sourceMsgId chatId = (db1, none)
      unfold createTask
      rw [if_pos hsim]

/-- Witness for the amended C2 at a concrete store: one active task
`"call bob"`, candidate `"call bob"` — the second call is a no-op, and the
characterization instantiates. -/
theorem C2_create_task_dedup_amended_witness :
    (pyStrip ((['c','a','l','l',' ','b','o','b'] : Str).take 50) ≠ [] ∧
      (∀ c ∈ pyStrip ((['c','a','l','l',' ','b','o','b'] : Str).take 50), c ≠ '\\')) ∧
    createTask
        (createTask { tasks := [], nextTaskId := 1 }
          ['t','a','s','k'] ['c','a','l','l',' ','b','o','b'] none none 100 none none none).1
        ['t','a','s','k'] ['c','a','l','l',' ','b','o','b'] none none 100 none none none
      = ((createTask { tasks := [], nextTaskId := 1 }
          ['t','a','s','k'] ['c','a','l','l',' ','b','o','b'] none none 100 none none none).1,
        none) := by
  refine ⟨⟨by decide, by decide⟩, ?_⟩
  exact (C2_create_task_dedup_amended { tasks := [], nextTaskId := 1 }
      ['t','a','s','k'] ['c','a','l','l',' ','b','o','b'] none none 100 none none
      none).2.2.2 (by decide) (by decide)

/-! ## `complete_task` with recurrence (spec 4.3, Completion)

The db.py on disk is an older version than the rest of src/: its
`create_task` and `save_message` do not accept the keyword arguments passed
by src/tools.py, src/confidence_manager.py and src/telegram_listener.py
(`remind_at`, `recurrence`, `track_completion`, `account`, …), and several
functions those modules import from `src.db` are absent from it.  The
recurrence-aware task operations the callers and the spec refer to are
therefore repository code missing from src/ and are modelled from the
spec's words below. -/

/-- One recurrence tick, in minutes: daily = 1 day, weekly = 7 days,
monthly is embedded as 30 days (the spec fixes no calendar rule). -/
def recurDelta : Recur → Int
  | .daily => 1440
  | .weekly => 10080
  | .monthly => 43200

/-- Modelled from the spec: `complete_task` (the recurrence-aware version
is absent from src/, which holds only the pre-recurrence db.py): set
`status='done', completed_at=now` on the task; if `recurrence` is set,
additionally clone the task as a new active row with the next occurrence's
`deadline` and `remind_at`, keeping the original closed. -/
def completeTask (db : TasksDB) (taskId : Nat) (now : Int) : TasksDB :=
  let closed := db.tasks.map (fun t =>
    if t.id = taskId then { t with status := TaskStatus.done, completedAt := some now }
    else t)
  match db.tasks.find? (fun t => t.id == taskId) with
  | none => { db with tasks := closed }
  | some t =>
    match t.recurrence with
    | none => { db with tasks := closed }
    | some r =>
        let clone : Task := { t with
          id := db.nextTaskId,
          status := TaskStatus.active,
          completedAt := none,
          deadline := t.deadline.map (fun d => d + recurDelta r),
          remindAt := t.remindAt.map (fun d => d + recurDelta r) }
        { tasks := closed ++ [clone], nextTaskId := db.nextTaskId + 1 }

/-- **C3.** Completing a task with a recurrence closes the original row
(status `done`, `completed_at` stamped) and appends exactly one new active
task whose deadline and `remind_at` are shifted by the recurrence tick;
completing a task without recurrence closes it and creates no new task. -/
theorem C3_complete_task_recurrence (db : TasksDB) (taskId : Nat) (now : Int) (t : Task)
    (hfind : db.tasks.find? (fun u => u.id == taskId) = some t) :
    (t.recurrence = none →
      (completeTask db taskId now).tasks.length = db.tasks.length ∧
      ∀ u ∈ (completeTask db taskId now).tasks, u.id = taskId →
        u.status = TaskStatus.done ∧ u.completedAt = some now) ∧
    (∀ r, t.recurrence = some r →
      ∃ clone,
        (completeTask db taskId now).tasks =
          db.tasks.map (fun u =>
            if u.id = taskId then
              { u with status := TaskStatus.done, completedAt := some now }
            else u) ++ [clone] ∧
        clone.status = TaskStatus.active ∧
        clone.completedAt = none ∧
        clone.description = t.description ∧
        clone.deadline = t.deadline.map (fun d => d + recurDelta r) ∧
        clone.remindAt = t.remindAt.map (fun d => d + recurDelta r)) := by
  constructor
  · intro hnone
    unfold completeTask
    rw [hfind]
    dsimp only
    rw [hnone]
    constructor
    · simp
    · intro u hu huid
      simp only [] at hu
      rcases List.mem_map.mp hu with ⟨v, hv, hvu⟩
      by_cases hid : v.id = taskId
      · rw [if_pos hid] at hvu
        subst hvu
        exact ⟨rfl, rfl⟩
      · rw [if_neg hid] at hvu
        subst hvu
        exact absurd huid hid
  · intro r hr
    unfold completeTask
    rw [hfind]
    dsimp only
    rw [hr]
    exact ⟨_, rfl, rfl, rfl, rfl, rfl, rfl⟩

/-- The concrete recurring task used by the C3 witness. -/
def c3Task : Task :=
  { id := 1, ttype := ['t'], description := ['p','a','y'], deadline := some 1000, remindAt := some 880, recurrence := some Recur.daily }

/-- Witness for C3: a daily task with a deadline is respawned once, shifted
by one day. -/
theorem C3_complete_task_recurrence_witness :
    (([c3Task].find? (fun u => u.id == 1)) = some c3Task) ∧
    ∃ clone,
      (completeTask { tasks := [c3Task], nextTaskId := 2 } 1 500).tasks =
        [c3Task].map (fun u =>
          if u.id = 1 then
            { u with status := TaskStatus.done, completedAt := some 500 }
          else u) ++ [clone] ∧
      clone.status = TaskStatus.active ∧
      clone.completedAt = none ∧
      clone.description = c3Task.description ∧
      clone.deadline = c3Task.deadline.map (fun d => d + recurDelta Recur.daily) ∧
      clone.remindAt = c3Task.remindAt.map (fun d => d + recurDelta Recur.daily) := by
  refine ⟨by decide, ?_⟩
  exact (C3_complete_task_recurrence { tasks := [c3Task], nextTaskId := 2 }
      1 500 c3Task (by decide)).2 Recur.daily rfl

/-! ## `resolve_confidence` (src/src/db.py 597-614) -/

/-- One row of the `confidence_queue` table. -/
structure ConfItem where
  id : Nat
  messageId : Nat
  chatId : Int := 0
  senderName : Str := []
  textPreview : Str := []
  predictedType : Str := []
  confidence : Int := 0
  isUrgent : Bool := false
  resolved : Bool := false
deriving DecidableEq, Repr

/-- One row of the `classification_feedback` table. -/
structure Feedback where
  messageId : Nat
  predictedType : Str
  actualType : Str
deriving DecidableEq, Repr

/-- The two tables `resolve_confidence` touches. -/
structure ConfDB where
  queue : List ConfItem := []
  feedback : List Feedback := []
deriving DecidableEq, Repr

/-- `resolve_confidence` (src/src/db.py 597-614): set `resolved = TRUE` on
the row with the given id, then re-read the row and — whenever the id
exists — append a `classification_feedback` row.  There is no check of the
previous `resolved` value. -/
def resolveConfidence (db : ConfDB) (queueId : Nat) (actualType : Str) : ConfDB :=
  let queue1 := db.queue.map (fun c =>
    if c.id = queueId then { c with resolved := true } else c)
  match queue1.find? (fun c => c.id == queueId) with
  | none => { db with queue := queue1 }
  | some row =>
      { queue := queue1,
        feedback := db.feedback ++
          [{ messageId := row.messageId, predictedType := row.predictedType, actualType := actualType }] }

lemma resolveConfidence_queue (db : ConfDB) (queueId : Nat) (actualType : Str) :
    (resolveConfidence db queueId actualType).queue =
      db.queue.map (fun c => if c.id = queueId then { c with resolved := true } else c) := by
  unfold resolveConfidence
  dsimp only
  split <;> rfl

lemma resolveConfidence_feedback_of_mem (db : ConfDB) (queueId : Nat) (actualType : Str)
    (h : ∃ c ∈ db.queue, c.id = queueId) :
    (resolveConfidence db queueId actualType).feedback.length = db.feedback.length + 1 := by
  obtain ⟨c, hc, hcid⟩ := h
  have hmem : ∃ x ∈ db.queue.map (fun c =>
      if c.id = queueId then { c with resolved := true } else c), (x.id == queueId) = true := by
    refine ⟨if c.id = queueId then { c with resolved := true } else c, List.mem_map_of_mem _ hc, ?_⟩
    rw [if_pos hcid]
    simpa using hcid
  have hsome : ((db.queue.map (fun c =>
      if c.id = queueId then { c with resolved := true } else c)).find?
      (fun c => c.id == queueId)).isSome := by
    rw [List.find?_isSome]
    exact hmem
  unfold resolveConfidence
  dsimp only
  rcases hf : (db.queue.map (fun c =>
      if c.id = queueId then { c with resolved := true } else c)).find?
      (fun c => c.id == queueId) with _ | row
  · rw [hf] at hsome
    exact absurd hsome (by simp)
  · rw [hf]
    simp

/-- **C8, counterexample.** A second `resolve_confidence` on the same queue
id is not a no-op: it leaves the queue row unchanged but appends a second
`classification_feedback` row. -/
theorem C8_counterexample :
    (resolveConfidence
        { queue := [{ id := 1, messageId := 7, predictedType := ['t'] }], feedback := [] }
        1 ['t']).feedback.length = 1 ∧
    (resolveConfidence
        (resolveConfidence
          { queue := [{ id := 1, messageId := 7, predictedType := ['t'] }], feedback := [] }
          1 ['t'])
        1 ['t']).feedback.length = 2 ∧
    (resolveConfidence
        (resolveConfidence
          { queue := [{ id := 1, messageId := 7, predictedType := ['t'] }], feedback := [] }
          1 ['t'])
        1 ['t']).queue =
      (resolveConfidence
        { queue := [{ id := 1, messageId := 7, predictedType := ['t'] }], feedback := [] }
        1 ['t']).queue := by
  decide

/-- **C8, amended.** After a first `resolve_confidence` on a queue id, a
second resolve of the same id leaves the confidence-queue rows unchanged,
but appends one more `classification_feedback` row whenever the id exists
in the queue; when the id does not exist at all, every resolve is a
complete no-op. -/
theorem C8_resolve_confidence_amended (db : ConfDB) (queueId : Nat) (t1 t2 : Str) :
    ((resolveConfidence (resolveConfidence db queueId t1) queueId t2).queue =
      (resolveConfidence db queueId t1).queue) ∧
    ((∃ c ∈ db.queue, c.id = queueId) →
      (resolveConfidence (resolveConfidence db queueId t1) queueId t2).feedback.length =
        (resolveConfidence db queueId t1).feedback.length + 1) ∧
    ((∀ c ∈ db.queue, c.id ≠ queueId) →
      resolveConfidence db queueId t1 = db) := by
  refine ⟨?_, ?_, ?_⟩
  · rw [resolveConfidence_queue, resolveConfidence_queue, List.map_map]
    exact List.map_congr_left (fun c _ => by
      by_cases h : c.id = queueId <;> simp [Function.comp, h])
  · intro h
    obtain ⟨c, hc, hcid⟩ := h
    apply resolveConfidence_feedback_of_mem
    refine ⟨if c.id = queueId then { c with resolved := true } else c, ?_, ?_⟩
    · rw [resolveConfidence_queue]
      exact List.mem_map_of_mem _ hc
    · rw [if_pos hcid]
      exact hcid
  · intro h
    have hmap : db.queue.map (fun c =>
        if c.id = queueId then { c with resolved := true } else c) = db.queue := by
      have hcg : ∀ c ∈ db.queue,
          (if c.id = queueId then { c with resolved := true } else c) = c :=
        fun c hc => if_neg (h c hc)
      calc db.queue.map (fun c =>
            if c.id = queueId then { c with resolved := true } else c)
          = db.queue.map id := List.map_congr_left hcg
        _ = db.queue := List.map_id _
    have hfindnone : (db.queue.find? (fun c => c.id == queueId)) = none := by
      rw [List.find?_eq_none]
      intro c hc
      simpa using h c hc
    unfold resolveConfidence
    dsimp only
    rw [hmap, hfindnone]

/-- Witness for the amended C8 at a concrete queue. -/
theorem C8_resolve_confidence_amended_witness :
    (∃ c ∈ ({ queue := [{ id := 1, messageId := 7, predictedType := ['t'] }], feedback := [] } : ConfDB).queue, c.id = 1) ∧
    (resolveConfidence
        (resolveConfidence
          { queue := [{ id := 1, messageId := 7, predictedType := ['t'] }], feedback := [] }
          1 ['i'])
        1 ['i']).feedback.length =
      (resolveConfidence
        { queue := [{ id := 1, messageId := 7, predictedType := ['t'] }], feedback := [] }
        1 ['i']).feedback.length + 1 := by
  refine ⟨⟨{ id := 1, messageId := 7, predictedType := ['t'] }, by decide, rfl⟩, ?_⟩
  exact (C8_resolve_confidence_amended
      { queue := [{ id := 1, messageId := 7, predictedType := ['t'] }], feedback := [] }
      1 ['i'] ['i']).2.1
    ⟨{ id := 1, messageId := 7, predictedType := ['t'] }, by decide, rfl⟩

/-! ## `process_classification` (src/src/confidence_manager.py 109-273)

The classifier's dispatch over the validated verdict.  External effects
(the notifier, the B3 deferred-notification task, logging) are returned as
`Note` values; the store mutation goes through the v9 `create_task`
(modelled from the spec — see the section above on the stale db.py), with
the caller-side dedup `has_similar_active_task` embedded from db.py. -/

def tyTask : Str := ['t','a','s','k']
def tyTaskForMe : Str := ['t','a','s','k','_','f','o','r','_','m','e']
def tyTaskFromMe : Str := ['t','a','s','k','_','f','r','o','m','_','m','e']
def tyPromiseMine : Str := ['p','r','o','m','i','s','e','_','m','i','n','e']
def tyPromiseIncoming : Str := ['p','r','o','m','i','s','e','_','i','n','c','o','m','i','n','g']
def tyInfo : Str := ['i','n','f','o']
def tyQuestion : Str := ['q','u','e','s','t','i','o','n']
def tySpam : Str := ['s','p','a','m']

/-- The validated classification verdict as `process_classification`
consumes it: `vtype` is the pre-normalization type (the source's
`original_type`), `deadline` the already-parsed datetime in minutes. -/
structure Verdict where
  vtype : Str
  confidence : Int
  summary : Str
  deadline : Option Int := none
  who : Option Str := none
  assignee : Option Str := none
  isUrgent : Bool := false
deriving DecidableEq, Repr

/-- Python `a or b` over string-or-None values (`who or assignee`):
`None` and the empty string are falsy. -/
def pyOrOptStr (a b : Option Str) : Option Str :=
  match a with
  | some s => if s = [] then b else some s
  | none => b

/-- Type normalization for the store (src/src/confidence_manager.py
166-168): `task_from_me`, `task_for_me` and `question` collapse to
`task`. -/
def normalizeDbType (t : Str) : Str :=
  if t = tyTaskFromMe ∨ t = tyTaskForMe ∨ t = tyQuestion then tyTask else t

/-- Modelled from the spec: the v9 `create_task` that
`process_classification` calls (absent from src/, whose db.py predates it):
per the caller's v9 comment the similarity dedup moved to the caller, so
insertion is unconditional; the row carries `remind_at`,
`track_completion` and the provenance columns. -/
def createTaskV9 (db : TasksDB) (taskType description : Str) (who : Option Str)
    (deadline remindAt : Option Int) (confidence : Int) (source : Option Str)
    (sourceMsgId : Option Nat) (chatId senderId : Option Int)
    (senderName account : Option Str) (trackCompletion : Bool) : TasksDB × Nat :=
  let t : Task := { id := db.nextTaskId, ttype := taskType, description := description,
                    who := who, deadline := deadline, remindAt := remindAt,
                    confidence := confidence, source := source,
                    sourceMsgId := sourceMsgId, chatId := chatId, senderId := senderId,
                    senderName := senderName, account := account,
                    trackCompletion := trackCompletion }
  ({ tasks := db.tasks ++ [t], nextTaskId := db.nextTaskId + 1 }, db.nextTaskId)

/-- The owner-facing effects of one classification. -/
inductive Note where
  | taskCreated (taskId : Nat) (confidence : Int) (summary : Str)
  | dupSkipped
  | highLog
  | mediumUrgent (summary : Str)
  | mediumDeferred (summary : Str)
  | mediumLog
  | lowInfo (summary : Str)
deriving DecidableEq, Repr

/-- `"telegram:"`, the source-tag prefix of auto-created tasks. -/
def srcTelegramTag : Str := ['t','e','l','e','g','r','a','m',':']

/-- `process_classification` (src/src/confidence_manager.py 109-273),
after the verdict is in hand: compute `original_type`, the
`track_completion` flag, the automatic `remind_at`, normalize the type,
then dispatch on the confidence band (HIGH > 80 creates a task after the
caller-side dedup; 50 ≤ MEDIUM ≤ 80 only notifies, deferred unless urgent;
LOW < 50 notifies informationally). -/
def processClassification (db : TasksDB) (now : Int) (v : Verdict) (dbMsgId : Nat)
    (chatId senderId : Int) (chatTitle senderName account : Str) : TasksDB × List Note :=
  let originalType := v.vtype
  let track := decide (originalType = tyTaskFromMe ∨ originalType = tyPromiseIncoming)
  let remindAt : Option Int :=
    if originalType = tyTaskForMe ∨ originalType = tyPromiseMine then
      match v.deadline with
      | some d => some (d - 120)
      | none => some (now + 1440)
    else none
  let dbType := normalizeDbType originalType
  if 80 < v.confidence then
    if dbType = tyTask ∨ dbType = tyPromiseMine ∨ dbType = tyPromiseIncoming then
      if hasSimilarActiveTask db.tasks v.summary then (db, [Note.dupSkipped])
      else
        let r := createTaskV9 db dbType v.summary (pyOrOptStr v.who v.assignee)
          v.deadline remindAt v.confidence (some (srcTelegramTag ++ chatTitle))
          (some dbMsgId) (some chatId) (some senderId) (some senderName) (some account)
          track
        (r.1, [Note.taskCreated r.2 v.confidence v.summary])
    else (db, [Note.highLog])
  else if 50 ≤ v.confidence then
    if dbType = tyTask ∨ dbType = tyPromiseMine ∨ dbType = tyPromiseIncoming ∨
        dbType = tyQuestion then
      (db, [if v.isUrgent then Note.mediumUrgent v.summary else Note.mediumDeferred v.summary])
    else (db, [Note.mediumLog])
  else (db, [Note.lowInfo v.summary])

/-- **C1.** For a verdict with confidence strictly above the HIGH
threshold (80) whose normalized type is `task`, `promise_mine` or
`promise_incoming`, and with no similar active task,
`process_classification` appends exactly one task; its `track_completion`
is true iff the pre-normalization type is `task_from_me` or
`promise_incoming`; its `remind_at` is `deadline − 2h` when a deadline is
present and the original type is `task_for_me` or `promise_mine`, and
`now + 24h` when no deadline is present for those two types. -/
theorem C1_process_classification_high (db : TasksDB) (now : Int) (v : Verdict)
    (dbMsgId : Nat) (chatId senderId : Int) (chatTitle senderName account : Str)
    (hconf : 80 < v.confidence)
    (htype : normalizeDbType v.vtype = tyTask ∨ normalizeDbType v.vtype = tyPromiseMine ∨
      normalizeDbType v.vtype = tyPromiseIncoming)
    (hdedup : hasSimilarActiveTask db.tasks v.summary = false) :
    ∃ t, (processClassification db now v dbMsgId chatId senderId chatTitle senderName
        account).1.tasks = db.tasks ++ [t] ∧
      (t.trackCompletion = true ↔ (v.vtype = tyTaskFromMe ∨ v.vtype = tyPromiseIncoming)) ∧
      (∀ d, v.deadline = some d → (v.vtype = tyTaskForMe ∨ v.vtype = tyPromiseMine) →
        t.remindAt = some (d - 120)) ∧
      (v.deadline = none → (v.vtype = tyTaskForMe ∨ v.vtype = tyPromiseMine) →
        t.remindAt = some (now + 1440)) := by
  unfold processClassification
  dsimp only
  rw [if_pos hconf, if_pos htype, if_neg (by simp [hdedup])]
  unfold createTaskV9
  dsimp only
  refine ⟨_, rfl, ?_, ?_, ?_⟩
  · simp
  · intro d hd htwo
    rw [if_pos htwo, hd]
  · intro hd htwo
    rw [if_pos htwo, hd]

/-- The concrete verdict used by the C1 witness. -/
def c1Verdict : Verdict :=
  { vtype := tyTaskForMe, confidence := 92, summary := ['p','a','y'], deadline := some 2000 }

/-- Witness for C1: a `task_for_me` at 92% with a deadline creates one task
with `track_completion = false` and `remind_at = deadline − 2h`. -/
theorem C1_process_classification_high_witness :
    (80 < c1Verdict.confidence ∧
      normalizeDbType c1Verdict.vtype = tyTask ∧
      hasSimilarActiveTask ({ tasks := [], nextTaskId := 1 } : TasksDB).tasks
        c1Verdict.summary = false) ∧
    ∃ t, (processClassification { tasks := [], nextTaskId := 1 } 0 c1Verdict 9 5 6
        ['c'] ['s'] ['a']).1.tasks = ([] : List Task) ++ [t] ∧
      (t.trackCompletion = true ↔
        (c1Verdict.vtype = tyTaskFromMe ∨ c1Verdict.vtype = tyPromiseIncoming)) ∧
      (∀ d, c1Verdict.deadline = some d →
        (c1Verdict.vtype = tyTaskForMe ∨ c1Verdict.vtype = tyPromiseMine) →
        t.remindAt = some (d - 120)) ∧
      (c1Verdict.deadline = none →
        (c1Verdict.vtype = tyTaskForMe ∨ c1Verdict.vtype = tyPromiseMine) →
        t.remindAt = some (0 + 1440)) := by
  refine ⟨⟨by decide, by decide, by decide⟩, ?_⟩
  exact C1_process_classification_high { tasks := [], nextTaskId := 1 } 0 c1Verdict 9 5 6
    ['c'] ['s'] ['a'] (by decide) (by decide) (by decide)

/-! ## `_parse_classification` (src/src/ai_brain.py 261-323)

The judge's raw reply is scanned with the regex `\{[\s\S]*\}` (greedy:
first `{` to last `}`), the region is fed to `json.loads`, and the
resulting dict is validated field by field.  JSON values are embedded as
`JVal` (numbers as integers — the verdict schema carries integer
confidences; `json.loads` itself is an external library and enters as an
oracle `loads` producing the parsed top-level object, `none` for invalid
JSON; its output dict has unique keys).  Python truthiness, `str()` and
`int()` are embedded below. -/

inductive JVal where
  | jnull
  | jbool (b : Bool)
  | jint (n : Int)
  | jstr (s : Str)
  | jarr (xs : List JVal)
  | jobj (fields : List (Str × JVal))

/-- Python truthiness. -/
def pyTruthy : JVal → Bool
  | .jnull => false
  | .jbool b => b
  | .jint n => decide (n ≠ 0)
  | .jstr s => decide (s ≠ [])
  | .jarr xs => !xs.isEmpty
  | .jobj fs => !fs.isEmpty

/-- Decimal digits of a natural number (of an integer with its sign). -/
def intRepr (n : Int) : Str :=
  if n < 0 then '-' :: Nat.toDigits 10 n.natAbs else Nat.toDigits 10 n.toNat

/-- Interleave a separator. -/
def joinSep (sep : Str) : List Str → Str
  | [] => []
  | [x] => x
  | x :: xs => x ++ sep ++ joinSep sep xs

mutual

/-- Python `repr()` on the embedded JSON values (used by `str()` inside
containers); string escaping inside `repr` is not embedded — only the
non-dateness of container renderings matters downstream. -/
def pyRepr : JVal → Str
  | .jnull => ['N','o','n','e']
  | .jbool true => ['T','r','u','e']
  | .jbool false => ['F','a','l','s','e']
  | .jint n => intRepr n
  | .jstr s => '\'' :: s ++ ['\'']
  | .jarr xs => '[' :: pyReprJoin xs ++ [']']
  | .jobj fs => '\x7b' :: pyReprFieldsJoin fs ++ ['\x7d']

def pyReprJoin : List JVal → Str
  | [] => []
  | [x] => pyRepr x
  | x :: xs => pyRepr x ++ [',', ' '] ++ pyReprJoin xs

def pyReprFieldsJoin : List (Str × JVal) → Str
  | [] => []
  | [kv] => '\'' :: kv.1 ++ ['\'', ':', ' '] ++ pyRepr kv.2
  | kv :: kvs => '\'' :: kv.1 ++ ['\'', ':', ' '] ++ pyRepr kv.2 ++ [',', ' '] ++ pyReprFieldsJoin kvs

end

/-- Python `str()` on the embedded JSON values. -/
def pyStr (v : JVal) : Str :=
  match v with
  | .jstr s => s
  | other => pyRepr other

/-- Digits-only decimal value. -/
def digitsVal (ds : Str) : Nat := ds.foldl (fun a c => a * 10 + (c.toNat - 48)) 0

/-- `int(s)` for a string: strip whitespace, optional sign, digits
(Python's underscore grouping is not embedded); `none` for `ValueError`. -/
def parseIntPy (s : Str) : Option Int :=
  match pyStrip s with
  | '+' :: ds => if ds ≠ [] ∧ ds.all Char.isDigit then some (Int.ofNat (digitsVal ds)) else none
  | '-' :: ds => if ds ≠ [] ∧ ds.all Char.isDigit then some (-(Int.ofNat (digitsVal ds))) else none
  | ds => if ds ≠ [] ∧ ds.all Char.isDigit then some (Int.ofNat (digitsVal ds)) else none

/-- `int(x)`: ints pass, bools coerce (`bool` is an `int` in Python),
numeric strings parse; everything else raises (`none` = the
`ValueError`/`TypeError` the source catches). -/
def pyInt : JVal → Option Int
  | .jint n => some n
  | .jbool b => some (if b then 1 else 0)
  | .jstr s => parseIntPy s
  | _ => none

def isLeap (y : Nat) : Bool := (y % 4 == 0 && y % 100 != 0) || (y % 400 == 0)

def daysInMonth (y m : Nat) : Nat :=
  if m = 2 then (if isLeap y then 29 else 28)
  else if m = 4 ∨ m = 6 ∨ m = 9 ∨ m = 11 then 30 else 31

/-- `datetime.strptime(s, "%Y-%m-%d")`: exactly 4 year digits, 1-2 month
digits, 1-2 day digits, separated by `-`, and a real calendar date
(`datetime` range starts at year 1). -/
def parseDateYMD (s : Str) : Option (Nat × Nat × Nat) :=
  match s.splitOn '-' with
  | [ys, ms, ds] =>
    if ys.length = 4 ∧ ys.all Char.isDigit ∧
        1 ≤ ms.length ∧ ms.length ≤ 2 ∧ ms.all Char.isDigit ∧
        1 ≤ ds.length ∧ ds.length ≤ 2 ∧ ds.all Char.isDigit then
      if 1 ≤ digitsVal ys ∧ 1 ≤ digitsVal ms ∧ digitsVal ms ≤ 12 ∧
          1 ≤ digitsVal ds ∧ digitsVal ds ≤ daysInMonth (digitsVal ys) (digitsVal ms) then
        some (digitsVal ys, digitsVal ms, digitsVal ds)
      else none
    else none
  | _ => none

/-- `VALID_TYPES` (src/src/ai_brain.py 17). -/
def validTypes : List Str :=
  [tyTask, tyTaskForMe, tyTaskFromMe, tyPromiseMine, tyPromiseIncoming, tyInfo, tyQuestion, tySpam]

def kType : Str := ['t','y','p','e']
def kSummary : Str := ['s','u','m','m','a','r','y']
def kConfidence : Str := ['c','o','n','f','i','d','e','n','c','e']
def kDeadline : Str := ['d','e','a','d','l','i','n','e']
def kWho : Str := ['w','h','o']
def kAssignee : Str := ['a','s','s','i','g','n','e','e']
def kIsUrgent : Str := ['i','s','_','u','r','g','e','n','t']

/-- `data.get(key)` on the parsed dict (unique keys, default `None`). -/
def dget (fields : List (Str × JVal)) (key : Str) : JVal :=
  match fields.find? (fun kv => kv.1 == key) with
  | some kv => kv.2
  | none => .jnull

/-- The validated classification dict. -/
structure ParsedClass where
  ctype : Str
  summary : Str
  confidence : Int
  deadline : Option Str
  who : Option Str
  assignee : Option Str
  isUrgent : Bool
deriving DecidableEq, Repr

/-- `_validate_classification` (src/src/ai_brain.py 275-313). -/
def validateClassification (fields : List (Str × JVal)) (originalText : Str) : ParsedClass :=
  { ctype :=
      match dget fields kType with
      | .jstr s => if validTypes.contains s then s else tyInfo
      | _ => tyInfo,
    summary :=
      match dget fields kSummary with
      | .jstr s => if s = [] then originalText.take 100 else s
      | _ => originalText.take 100,
    confidence :=
      match pyInt (dget fields kConfidence) with
      | some n => max 0 (min 100 n)
      | none => 0,
    deadline :=
      if pyTruthy (dget fields kDeadline) then
        (if (parseDateYMD (pyStr (dget fields kDeadline))).isSome then
          some (pyStr (dget fields kDeadline)) else none)
      else none,
    who :=
      match dget fields kWho with
      | .jstr s => some s
      | _ => none,
    assignee :=
      match dget fields kAssignee with
      | .jstr s => some s
      | _ => none,
    isUrgent := pyTruthy (dget fields kIsUrgent) }

/-- `_default_classification` (src/src/ai_brain.py 315-323); the source's
default dict has no `assignee` key, and a missing key reads as `None`. -/
def defaultClassification (text : Str) : ParsedClass :=
  { ctype := tyInfo, summary := text.take 100, confidence := 0, deadline := none,
    who := none, assignee := none, isUrgent := false }

/-- The regex `\{[\s\S]*\}` (src/src/ai_brain.py 265): greedy, so it spans
from the first `{` to the last `}`; no match when either is missing. -/
def extractJsonRegion (raw : Str) : Option Str :=
  let fromBrace := raw.dropWhile (fun c => c ≠ '\x7b')
  if fromBrace = [] then none
  else if fromBrace.any (fun c => c = '\x7d') then
    some ((fromBrace.reverse.dropWhile (fun c => c ≠ '\x7d')).reverse)
  else none

/-- `_parse_classification` (src/src/ai_brain.py 261-273): extract the
`{…}` region; on no region or invalid JSON fall back to the safe default;
otherwise validate. -/
def parseClassification (loads : Str → Option (List (Str × JVal)))
    (raw originalText : Str) : ParsedClass :=
  match extractJsonRegion raw with
  | none => defaultClassification originalText
  | some region =>
    match loads region with
    | none => defaultClassification originalText
    | some fields => validateClassification fields originalText

lemma parseClassification_no_region (loads : Str → Option (List (Str × JVal)))
    (raw txt : Str) (hex : extractJsonRegion raw = none) :
    parseClassification loads raw txt = defaultClassification txt := by
  unfold parseClassification
  rw [hex]

lemma parseClassification_invalid (loads : Str → Option (List (Str × JVal)))
    (raw txt region : Str) (hex : extractJsonRegion raw = some region)
    (hl : loads region = none) :
    parseClassification loads raw txt = defaultClassification txt := by
  unfold parseClassification
  rw [hex]
  dsimp only
  rw [hl]

lemma parseClassification_valid (loads : Str → Option (List (Str × JVal)))
    (raw txt region : Str) (fields : List (Str × JVal))
    (hex : extractJsonRegion raw = some region) (hl : loads region = some fields) :
    parseClassification loads raw txt = validateClassification fields txt := by
  unfold parseClassification
  rw [hex]
  dsimp only
  rw [hl]

lemma validate_ctype_mem (fields : List (Str × JVal)) (txt : Str) :
    validTypes.contains (validateClassification fields txt).ctype = true := by
  unfold validateClassification
  dsimp only
  cases hd : dget fields kType with
  | jstr s =>
    dsimp only
    by_cases h : validTypes.contains s = true
    · rw [if_pos h]
      exact h
    · rw [if_neg h]
      decide
  | jnull => decide
  | jbool b => dsimp only; decide
  | jint n => dsimp only; decide
  | jarr xs => dsimp only; decide
  | jobj fs => dsimp only; decide

lemma validate_confidence_bounds (fields : List (Str × JVal)) (txt : Str) :
    0 ≤ (validateClassification fields txt).confidence ∧
      (validateClassification fields txt).confidence ≤ 100 := by
  unfold validateClassification
  dsimp only
  cases pyInt (dget fields kConfidence) with
  | none => simp
  | some n =>
    dsimp only
    constructor
    · exact le_max_left _ _
    · rw [max_le_iff]
      exact ⟨by norm_num, min_le_left _ _⟩

lemma validate_confidence_nonnumeric (fields : List (Str × JVal)) (txt : Str)
    (h : pyInt (dget fields kConfidence) = none) :
    (validateClassification fields txt).confidence = 0 := by
  unfold validateClassification
  dsimp only
  rw [h]

lemma validate_deadline_parses (fields : List (Str × JVal)) (txt : Str) :
    ∀ s, (validateClassification fields txt).deadline = some s →
      (parseDateYMD s).isSome = true := by
  unfold validateClassification
  dsimp only
  intro s hs
  by_cases h1 : pyTruthy (dget fields kDeadline) = true
  · rw [if_pos h1] at hs
    by_cases h2 : (parseDateYMD (pyStr (dget fields kDeadline))).isSome = true
    · rw [if_pos h2] at hs
      cases hs
      exact h2
    · rw [if_neg h2] at hs
      exact absurd hs (by simp)
  · rw [if_neg h1] at hs
    exact absurd hs (by simp)

lemma default_ctype (txt : Str) : (defaultClassification txt).ctype = tyInfo := rfl

lemma default_confidence (txt : Str) : (defaultClassification txt).confidence = 0 := rfl

/-- **C5.** Whatever the judge replies, the parsed classification has a
type from the known set (falling back to `info`), an integer confidence
clamped into [0,100] (0 when the raw value is non-numeric), a deadline that
is either `None` or a string parsing as `YYYY-MM-DD`, and — structurally in
this embedding — string-or-null `who`/`assignee` and a boolean `is_urgent`;
and when the reply holds no `{…}` region, or the region is not valid JSON,
the result is the safe default `(type=info, confidence=0)`. -/
theorem C5_parse_classification_validated (loads : Str → Option (List (Str × JVal)))
    (raw originalText : Str) :
    (validTypes.contains (parseClassification loads raw originalText).ctype = true) ∧
    (0 ≤ (parseClassification loads raw originalText).confidence ∧
      (parseClassification loads raw originalText).confidence ≤ 100) ∧
    (∀ region fields, extractJsonRegion raw = some region → loads region = some fields →
      pyInt (dget fields kConfidence) = none →
      (parseClassification loads raw originalText).confidence = 0) ∧
    (∀ s, (parseClassification loads raw originalText).deadline = some s →
      (parseDateYMD s).isSome = true) ∧
    (extractJsonRegion raw = none →
      parseClassification loads raw originalText = defaultClassification originalText) ∧
    (∀ region, extractJsonRegion raw = some region → loads region = none →
      parseClassification loads raw originalText = defaultClassification originalText) ∧
    (defaultClassification originalText).ctype = tyInfo ∧
    (defaultClassification originalText).confidence = 0 := by
  cases hex : extractJsonRegion raw with
  | none =>
    rw [parseClassification_no_region loads raw originalText hex]
    refine ⟨by rw [default_ctype]; decide, by simp [defaultClassification], ?_, ?_,
      fun _ => rfl, ?_, rfl, rfl⟩
    · intro region fields hr
      exact absurd hr (by simp)
    · intro s hs
      exact absurd hs (by simp [defaultClassification])
    · intro region hr
      exact absurd hr (by simp)
  | some region =>
    cases hl : loads region with
    | none =>
      rw [parseClassification_invalid loads raw originalText region hex hl]
      refine ⟨by rw [default_ctype]; decide, by simp [defaultClassification], ?_, ?_, ?_,
        fun _ _ _ => rfl, rfl, rfl⟩
      · intro region2 fields hr2 hl2
        cases hr2
        rw [hl] at hl2
        exact absurd hl2 (by simp)
      · intro s hs
        exact absurd hs (by simp [defaultClassification])
      · intro h
        exact absurd h (by simp)
    | some fields =>
      rw [parseClassification_valid loads raw originalText region fields hex hl]
      refine ⟨validate_ctype_mem fields originalText,
        validate_confidence_bounds fields originalText, ?_, ?_, ?_, ?_, rfl, rfl⟩
      · intro region2 fields2 hr2 hl2 hnon
        cases hr2
        rw [hl] at hl2
        cases hl2
        exact validate_confidence_nonnumeric fields originalText hnon
      · exact validate_deadline_parses fields originalText
      · intro h
        exact absurd h (by simp)
      · intro region2 hr2 hl2
        cases hr2
        rw [hl] at hl2
        exact absurd hl2 (by simp)

/-- Witness for C5 on a concrete reply: a reply with no JSON object gives
the safe default. -/
theorem C5_parse_classification_validated_witness :
    extractJsonRegion ['h','i'] = none ∧
    parseClassification (fun _ => none) ['h','i'] ['m','s','g'] =
      defaultClassification ['m','s','g'] := by
  refine ⟨by decide, ?_⟩
  exact (C5_parse_classification_validated (fun _ => none) ['h','i'] ['m','s','g']).2.2.2.2.1
    (by decide)

/-! ## `ask_with_tools` (src/src/ai_brain.py 497-621)

The bounded tool-use loop.  The Anthropic API is an oracle `script`
assigning to each round the response it returns (stop reason plus content
blocks); `execute_tool` is an oracle `exec` from tool name and input to the
result string.  The conversation grows by an assistant turn plus a user
turn of tool results per tool round; the log records name, input and the
result truncated to 500 characters. -/

inductive RespBlock where
  | textB (s : Str)
  | toolUseB (tid tname tinput : Str)
deriving DecidableEq, Repr

inductive StopReason where
  | endTurn
  | toolUse
  | otherR (s : Str)
deriving DecidableEq, Repr

/-- One API response. -/
structure Resp where
  stop : StopReason
  content : List RespBlock
deriving DecidableEq, Repr

inductive ConvEntry where
  | assistantMsg (content : List RespBlock)
  | toolResults (rs : List (Str × Str))
deriving DecidableEq, Repr

structure ToolLogEntry where
  tname : Str
  tinput : Str
  result : Str
deriving DecidableEq, Repr

/-- The dict `ask_with_tools` returns (plus the number of API calls
made). -/
structure AskResult where
  text : Str
  toolLog : List ToolLogEntry
  conv : List ConvEntry
  rounds : Nat
deriving DecidableEq, Repr

/-- The text blocks of a response, in order. -/
def textParts (bs : List RespBlock) : List Str :=
  bs.filterMap (fun b => match b with | .textB s => some s | _ => none)

/-- `"\n".join(...)`. -/
def joinNewline : List Str → Str
  | [] => []
  | [x] => x
  | x :: xs => x ++ '\n' :: joinNewline xs

/-- The `tool_result` blocks produced for one response: every `tool_use`
block, in the order emitted, with its executed result. -/
def toolResultsOf (exec : Str → Str → Str) (bs : List RespBlock) : List (Str × Str) :=
  bs.filterMap (fun b =>
    match b with
    | .toolUseB tid tname tinput => some (tid, exec tname tinput)
    | _ => none)

/-- The log entries for one response (result truncated to 500). -/
def toolLogOf (exec : Str → Str → Str) (bs : List RespBlock) : List ToolLogEntry :=
  bs.filterMap (fun b =>
    match b with
    | .toolUseB _ tname tinput =>
      some { tname := tname, tinput := tinput, result := (exec tname tinput).take 500 }
    | _ => none)

/-- The message returned on exceeding the round limit. -/
def limitMsg : Str := "(Превышен лимит обработки. Попробуй переформулировать.)".data

/-- The fallback text for an unexpected stop reason with no text blocks. -/
def noAnswerMsg : Str := "(модель не дала ответа)".data

/-- The `for round_num in range(max_tool_rounds)` loop, with the fuel
counting the remaining rounds and `used` the API calls already made. -/
def askLoop (exec : Str → Str → Str) (script : Nat → Resp) :
    Nat → Nat → List ConvEntry → List ToolLogEntry → AskResult
  | 0, used, conv, lg => { text := limitMsg, toolLog := lg, conv := conv, rounds := used }
  | n + 1, used, conv, lg =>
    match (script used).stop with
    | .endTurn =>
      { text := joinNewline (textParts (script used).content), toolLog := lg,
        conv := conv, rounds := used + 1 }
    | .toolUse =>
      askLoop exec script n (used + 1)
        (conv ++ [ConvEntry.assistantMsg (script used).content,
          ConvEntry.toolResults (toolResultsOf exec (script used).content)])
        (lg ++ toolLogOf exec (script used).content)
    | .otherR _ =>
      { text :=
          if joinNewline (textParts (script used).content) = [] then noAnswerMsg
          else joinNewline (textParts (script used).content),
        toolLog := lg, conv := conv, rounds := used + 1 }

/-- `ask_with_tools` with its default `max_tool_rounds`. -/
def askWithTools (exec : Str → Str → Str) (script : Nat → Resp)
    (maxToolRounds : Nat) : AskResult :=
  askLoop exec script maxToolRounds 0 [] []

/-- The conversation suffix built by rounds `u, u+1, …, u+k-1` (each an
assistant turn followed by a user turn of tool results). -/
def buildConv (exec : Str → Str → Str) (script : Nat → Resp) (u : Nat) : Nat → List ConvEntry
  | 0 => []
  | k + 1 =>
    [ConvEntry.assistantMsg (script u).content,
     ConvEntry.toolResults (toolResultsOf exec (script u).content)] ++
      buildConv exec script (u + 1) k

/-- The log suffix built by rounds `u, …, u+k-1`. -/
def buildLog (exec : Str → Str → Str) (script : Nat → Resp) (u : Nat) : Nat → List ToolLogEntry
  | 0 => []
  | k + 1 => toolLogOf exec (script u).content ++ buildLog exec script (u + 1) k

lemma buildConv_zero (exec : Str → Str → Str) (script : Nat → Resp) (u : Nat) :
    buildConv exec script u 0 = [] := rfl

lemma buildLog_zero (exec : Str → Str → Str) (script : Nat → Resp) (u : Nat) :
    buildLog exec script u 0 = [] := rfl

lemma buildConv_succ (exec : Str → Str → Str) (script : Nat → Resp) (u k : Nat) :
    buildConv exec script u (k + 1) =
      [ConvEntry.assistantMsg (script u).content,
       ConvEntry.toolResults (toolResultsOf exec (script u).content)] ++
        buildConv exec script (u + 1) k := rfl

lemma buildLog_succ (exec : Str → Str → Str) (script : Nat → Resp) (u k : Nat) :
    buildLog exec script u (k + 1) =
      toolLogOf exec (script u).content ++ buildLog exec script (u + 1) k := rfl

lemma askLoop_rounds_le (exec : Str → Str → Str) (script : Nat → Resp) :
    ∀ (n used : Nat) (conv : List ConvEntry) (lg : List ToolLogEntry),
      (askLoop exec script n used conv lg).rounds ≤ used + n := by
  intro n
  induction n with
  | zero => intro used conv lg; rw [askLoop]; dsimp only; omega
  | succ m ih =>
    intro used conv lg
    rw [askLoop]
    cases h : (script used).stop with
    | endTurn => dsimp only; omega
    | toolUse =>
      dsimp only
      have := ih (used + 1)
        (conv ++ [ConvEntry.assistantMsg (script used).content,
          ConvEntry.toolResults (toolResultsOf exec (script used).content)])
        (lg ++ toolLogOf exec (script used).content)
      omega
    | otherR s => dsimp only; omega

lemma askLoop_run (exec : Str → Str → Str) (script : Nat → Resp) :
    ∀ (k n used : Nat) (conv : List ConvEntry) (lg : List ToolLogEntry),
      k ≤ n → (∀ j, j < k → (script (used + j)).stop = StopReason.toolUse) →
      askLoop exec script n used conv lg =
        askLoop exec script (n - k) (used + k)
          (conv ++ buildConv exec script used k) (lg ++ buildLog exec script used k) := by
  intro k
  induction k with
  | zero =>
    intro n used conv lg _ _
    rw [buildConv_zero, buildLog_zero]
    simp
  | succ m ih =>
    intro n used conv lg hkn htool
    cases n with
    | zero => omega
    | succ n' =>
      have h0 : (script (used + 0)).stop = StopReason.toolUse := htool 0 (by omega)
      rw [Nat.add_zero] at h0
      rw [askLoop]
      rw [h0]
      dsimp only
      have step := ih n' (used + 1)
        (conv ++ [ConvEntry.assistantMsg (script used).content,
          ConvEntry.toolResults (toolResultsOf exec (script used).content)])
        (lg ++ toolLogOf exec (script used).content)
        (by omega)
        (fun j hj => by
          have := htool (j + 1) (by omega)
          rwa [show used + (j + 1) = used + 1 + j by omega] at this)
      rw [step]
      rw [buildConv_succ, buildLog_succ]
      have e1 : Nat.succ n' - Nat.succ m = n' - m := by omega
      have e2 : used + Nat.succ m = used + 1 + m := by omega
      rw [e1, e2]
      simp [List.append_assoc]

/-- **C4.** `ask_with_tools` makes at most 5 API calls; when the model
stops with `end_turn` (after `k` tool rounds), the returned text is the
newline-join of that response's text blocks, and the conversation so far
holds, for each tool round in order, the assistant turn followed by a user
turn with every requested tool call executed in the order emitted; on any
other stop reason the text of that response (or a fallback when empty) is
returned; and when all 5 rounds want tools, the polite limit message is
returned. -/
theorem C4_ask_with_tools (exec : Str → Str → Str) (script : Nat → Resp) :
    ((askWithTools exec script 5).rounds ≤ 5) ∧
    (∀ k, k < 5 → (∀ j, j < k → (script j).stop = StopReason.toolUse) →
      (script k).stop = StopReason.endTurn →
      askWithTools exec script 5 =
        { text := joinNewline (textParts (script k).content),
          toolLog := buildLog exec script 0 k,
          conv := buildConv exec script 0 k,
          rounds := k + 1 }) ∧
    (∀ k s, k < 5 → (∀ j, j < k → (script j).stop = StopReason.toolUse) →
      (script k).stop = StopReason.otherR s →
      askWithTools exec script 5 =
        { text := if joinNewline (textParts (script k).content) = [] then noAnswerMsg
            else joinNewline (textParts (script k).content),
          toolLog := buildLog exec script 0 k,
          conv := buildConv exec script 0 k,
          rounds := k + 1 }) ∧
    ((∀ j, j < 5 → (script j).stop = StopReason.toolUse) →
      askWithTools exec script 5 =
        { text := limitMsg, toolLog := buildLog exec script 0 5,
          conv := buildConv exec script 0 5, rounds := 5 }) := by
  refine ⟨?_, ?_, ?_, ?_⟩
  · have h := askLoop_rounds_le exec script 5 0 [] []
    unfold askWithTools
    omega
  · intro k hk htool hend
    have hrun := askLoop_run exec script k 5 0 [] [] (by omega)
      (fun j hj => by simpa using htool j hj)
    unfold askWithTools
    rw [hrun]
    obtain ⟨m, hm⟩ : ∃ m, 5 - k = m + 1 := ⟨5 - k - 1, by omega⟩
    rw [hm, Nat.zero_add, askLoop, hend]
    simp
  · intro k s hk htool hother
    have hrun := askLoop_run exec script k 5 0 [] [] (by omega)
      (fun j hj => by simpa using htool j hj)
    unfold askWithTools
    rw [hrun]
    obtain ⟨m, hm⟩ : ∃ m, 5 - k = m + 1 := ⟨5 - k - 1, by omega⟩
    rw [hm, Nat.zero_add, askLoop, hother]
    simp
  · intro htool
    have hrun := askLoop_run exec script 5 5 0 [] [] (by omega)
      (fun j hj => by simpa using htool j hj)
    unfold askWithTools
    rw [hrun]
    rw [show (5 : Nat) - 5 = 0 from rfl, Nat.zero_add, askLoop]
    simp

/-- The concrete response script of the C4 witness: one tool round, then
`end_turn`. -/
def c4Script : Nat → Resp := fun n =>
  if n = 0 then
    { stop := StopReason.toolUse, content := [RespBlock.toolUseB ['1'] ['l','t'] ['x']] }
  else { stop := StopReason.endTurn, content := [RespBlock.textB ['o','k']] }

/-- The concrete tool executor of the C4 witness. -/
def c4Exec : Str → Str → Str := fun _ _ => ['r']

/-- Witness for C4: one tool round then an `end_turn` reply. -/
theorem C4_ask_with_tools_witness :
    ((1 : Nat) < 5 ∧ (∀ j, j < 1 → (c4Script j).stop = StopReason.toolUse) ∧
      (c4Script 1).stop = StopReason.endTurn) ∧
    askWithTools c4Exec c4Script 5 =
      { text := joinNewline (textParts (c4Script 1).content),
        toolLog := buildLog c4Exec c4Script 0 1,
        conv := buildConv c4Exec c4Script 0 1,
        rounds := 1 + 1 } := by
  refine ⟨⟨by omega, by decide, by decide⟩, ?_⟩
  exact (C4_ask_with_tools c4Exec c4Script).2.1 1 (by omega) (by decide) (by decide)

/-! ## `_resilient_listener` (src/main.py 108-145) with `start_listener`
(src/src/telegram_listener.py 109-163)

One run of the supervisor loop, driven by a script of attempt outcomes:
`crash` = `start_listener` raised before the clients connected,
`connectThenCrash` = the clients connected (the restored notice fires if
the recovery flag is set), then `run_until_disconnected` raised,
`cleanExit` = normal shutdown return (the loop breaks).  The notifier is
returned as a list of events; `asyncio.sleep(retry_delay)` becomes a
`sleep` event. -/

inductive Attempt where
  | crash
  | connectThenCrash
  | cleanExit
deriving DecidableEq, Repr

inductive LEvent where
  | offline
  | restored
  | sleep (secs : Nat)
deriving DecidableEq, BEq, Repr

@[simp] lemma sleep_beq_offline (s : Nat) : (LEvent.sleep s == LEvent.offline) = false := rfl

@[simp] lemma sleep_beq_restored (s : Nat) : (LEvent.sleep s == LEvent.restored) = false := rfl

@[simp] lemma offline_beq_restored : (LEvent.offline == LEvent.restored) = false := rfl

@[simp] lemma restored_beq_offline : (LEvent.restored == LEvent.offline) = false := rfl

@[simp] lemma offline_beq_offline : (LEvent.offline == LEvent.offline) = true := rfl

@[simp] lemma restored_beq_restored : (LEvent.restored == LEvent.restored) = true := rfl

/-- The supervisor's mutable state: `retry_delay`, `notified_down` and the
listener module's `_recovering` flag. -/
structure LState where
  retryDelay : Nat := 30
  notifiedDown : Bool := false
  recovering : Bool := false
deriving DecidableEq, Repr

/-- The `except` branch of `_resilient_listener`: one offline notice on the
first crash ever, then sleep and double the delay capped at 300 s. -/
def crashBranch (st : LState) : List LEvent × LState :=
  if st.notifiedDown then
    ([LEvent.sleep st.retryDelay], { st with retryDelay := min (st.retryDelay * 2) 300 })
  else
    ([LEvent.offline, LEvent.sleep st.retryDelay],
     { st with notifiedDown := true, retryDelay := min (st.retryDelay * 2) 300 })

/-- The `while not _shutting_down` loop of `_resilient_listener`: set the
recovery flag when retrying after a crash, run `start_listener` (which
emits the restored notice right after connecting and clears the flag), and
on an exception run the crash branch and continue. -/
def resilientRun : LState → List Attempt → List LEvent
  | _, [] => []
  | st, a :: rest =>
    let st1 := if st.notifiedDown then { st with recovering := true } else st
    match a with
    | .cleanExit => if st1.recovering then [LEvent.restored] else []
    | .connectThenCrash =>
        (if st1.recovering then [LEvent.restored] else []) ++
          (crashBranch { st1 with recovering := false }).1 ++
          resilientRun (crashBranch { st1 with recovering := false }).2 rest
    | .crash =>
        (crashBranch st1).1 ++ resilientRun (crashBranch st1).2 rest

/-- `_resilient_listener` from process start. -/
def resilientListener (script : List Attempt) : List LEvent :=
  resilientRun {} script

/-- The reconnect sleeps of a trace, in order. -/
def sleepsOf (evs : List LEvent) : List Nat :=
  evs.filterMap (fun e => match e with | .sleep s => some s | _ => none)

/-- The delay before the (k+1)-st reconnect since process start:
`30 · 2^k` capped at 300 s (the code never resets it). -/
def delayAt (k : Nat) : Nat := min (30 * 2 ^ k) 300

/-- How many attempts of the script end in a crash (the loop stops at a
clean exit). -/
def crashCount : List Attempt → Nat
  | [] => 0
  | .cleanExit :: _ => 0
  | _ :: rest => crashCount rest + 1

/-- How many restored notices the run should emit: one per successful
connect that follows at least one earlier crash. -/
def restoredCount (prior : Bool) : List Attempt → Nat
  | [] => 0
  | .crash :: rest => restoredCount true rest
  | .connectThenCrash :: rest => (if prior then 1 else 0) + restoredCount true rest
  | .cleanExit :: _ => if prior then 1 else 0

lemma delayAt_succ (c : Nat) : min (delayAt c * 2) 300 = delayAt (c + 1) := by
  unfold delayAt
  rw [pow_succ]
  generalize (2 : Nat) ^ c = p
  omega

lemma rangeMap_delay_succ (c n : Nat) :
    (List.range (n + 1)).map (fun k => delayAt (c + k)) =
      delayAt c :: (List.range n).map (fun k => delayAt (c + 1 + k)) := by
  rw [List.range_succ_eq_map]
  simp only [List.map_cons, Nat.add_zero, List.map_map]
  congr 1
  apply List.map_congr_left
  intro j _
  simp only [Function.comp, Nat.succ_eq_add_one]
  congr 1
  omega

lemma resilientRun_spec (script : List Attempt) :
    ∀ (c : Nat) (st : LState),
      st.retryDelay = delayAt c →
      st.notifiedDown = decide (c ≠ 0) →
      (st.recovering = true → st.notifiedDown = true) →
      sleepsOf (resilientRun st script) =
          (List.range (crashCount script)).map (fun k => delayAt (c + k)) ∧
      (resilientRun st script).count LEvent.offline =
          (if c = 0 ∧ crashCount script ≠ 0 then 1 else 0) ∧
      (resilientRun st script).count LEvent.restored = restoredCount (decide (c ≠ 0)) script := by
  induction script with
  | nil =>
    intro c st h1 h2 h3
    rw [resilientRun]
    refine ⟨by simp [sleepsOf, crashCount], by simp [crashCount], by simp [restoredCount]⟩
  | cons a rest ih =>
    intro c st h1 h2 h3
    have hd1 : (if st.notifiedDown = true then { st with recovering := true }
        else st).retryDelay = delayAt c := by
      by_cases hn : st.notifiedDown = true
      · rw [if_pos hn]; exact h1
      · rw [if_neg hn]; exact h1
    have hd2 : (if st.notifiedDown = true then { st with recovering := true }
        else st).notifiedDown = decide (c ≠ 0) := by
      by_cases hn : st.notifiedDown = true
      · rw [if_pos hn]; exact h2
      · rw [if_neg hn]; exact h2
    have hrec : (if st.notifiedDown = true then { st with recovering := true }
        else st).recovering = decide (c ≠ 0) := by
      by_cases hn : st.notifiedDown = true
      · rw [if_pos hn]
        show true = decide (c ≠ 0)
        rw [← h2, hn]
      · rw [if_neg hn]
        simp only [Bool.not_eq_true] at hn
        by_cases hr : st.recovering = true
        · exact absurd (h3 hr) (by simp [hn])
        · simp only [Bool.not_eq_true] at hr
          rw [hr]
          have hc0 : c = 0 := by
            by_contra hcc
            rw [h2] at hn
            simp [hcc] at hn
          simp [hc0]
    have hccount1 : crashCount (Attempt.crash :: rest) = crashCount rest + 1 := rfl
    have hccount2 : crashCount (Attempt.connectThenCrash :: rest) = crashCount rest + 1 := rfl
    cases a with
    | cleanExit =>
      rw [resilientRun]
      set st1 := (if st.notifiedDown = true then { st with recovering := true } else st)
        with hst1def
      rw [hrec]
      refine ⟨?_, ?_, ?_⟩
      · by_cases hc : c ≠ 0 <;> simp [hc, sleepsOf, crashCount] <;> decide
      · by_cases hc : c ≠ 0 <;> simp [hc, crashCount] <;> decide
      · by_cases hc : c ≠ 0 <;> simp [hc, restoredCount] <;> decide
    | crash =>
      rw [resilientRun]
      set st1 := (if st.notifiedDown = true then { st with recovering := true } else st)
        with hst1def
      unfold crashBranch
      by_cases hc : c = 0
      · have hn : st1.notifiedDown = false := by rw [hd2]; simp [hc]
        rw [hn]
        have hrec0 : st1.recovering = false := by rw [hrec]; simp [hc]
        have ihx := ih 1 { st1 with notifiedDown := true, retryDelay := min (st1.retryDelay * 2) 300 }
          (by show min (st1.retryDelay * 2) 300 = delayAt 1
              rw [hd1, hc, delayAt_succ 0])
          (by simp)
          (by intro _
              rfl)
        rw [if_neg (by simp)]
        subst hc
        refine ⟨?_, ?_, ?_⟩
        · simp only [sleepsOf, List.filterMap_append] at ihx ⊢
          rw [hccount1, rangeMap_delay_succ]
          rw [ihx.1]
          simp [hd1, sleepsOf]
        · simp only [List.count_append] at ihx ⊢
          rw [ihx.2.1, hccount1]
          simp [List.count_cons]
        · simp only [List.count_append] at ihx ⊢
          rw [ihx.2.2]
          rw [show restoredCount (decide ((0 : Nat) ≠ 0)) (Attempt.crash :: rest)
            = restoredCount true rest from rfl]
          simp [List.count_cons]
      · have hn : st1.notifiedDown = true := by rw [hd2]; simp [hc]
        rw [hn]
        rw [if_pos rfl]
        have ihx := ih (c + 1) { st1 with retryDelay := min (st1.retryDelay * 2) 300 }
          (by show min (st1.retryDelay * 2) 300 = delayAt (c + 1)
              rw [hd1, delayAt_succ])
          (by show st1.notifiedDown = decide (c + 1 ≠ 0)
              rw [hn]; simp)
          (by intro _
              show st1.notifiedDown = true
              exact hn)
        rw [hn] at ihx
        refine ⟨?_, ?_, ?_⟩
        · simp only [sleepsOf, List.filterMap_append] at ihx ⊢
          rw [hccount1, rangeMap_delay_succ]
          rw [ihx.1]
          simp [hd1, sleepsOf]
        · simp only [List.count_append] at ihx ⊢
          rw [ihx.2.1]
          simp [hc, List.count_cons]
        · simp only [List.count_append] at ihx ⊢
          rw [ihx.2.2]
          rw [show restoredCount (decide (c ≠ 0)) (Attempt.crash :: rest)
            = restoredCount true rest from rfl]
          simp [hc, List.count_cons]
    | connectThenCrash =>
      rw [resilientRun]
      set st1 := (if st.notifiedDown = true then { st with recovering := true } else st)
        with hst1def
      rw [hrec]
      set st2 := ({ st1 with recovering := false } : LState) with hst2def
      have hn2 : st2.notifiedDown = st1.notifiedDown := rfl
      have hr2 : st2.retryDelay = st1.retryDelay := rfl
      unfold crashBranch
      by_cases hc : c = 0
      · have hn : st2.notifiedDown = false := by rw [hn2, hd2]; simp [hc]
        rw [hn]
        subst hc
        have ihx := ih 1 { st2 with notifiedDown := true, retryDelay := min (st2.retryDelay * 2) 300 }
          (by show min (st2.retryDelay * 2) 300 = delayAt 1
              rw [hr2, hd1, delayAt_succ 0])
          (by simp)
          (by intro _
              rfl)
        rw [if_neg (by simp), if_neg (by simp)]
        refine ⟨?_, ?_, ?_⟩
        · simp only [sleepsOf, List.filterMap_append] at ihx ⊢
          rw [hccount2, rangeMap_delay_succ]
          rw [ihx.1]
          simp [hr2, hd1, sleepsOf]
        · simp only [List.count_append] at ihx ⊢
          rw [ihx.2.1, hccount2]
          simp [List.count_cons]
        · simp only [List.count_append] at ihx ⊢
          rw [ihx.2.2]
          rw [show restoredCount (decide ((0 : Nat) ≠ 0)) (Attempt.connectThenCrash :: rest)
            = (if decide ((0 : Nat) ≠ 0) = true then 1 else 0) + restoredCount true rest
            from rfl]
          simp [List.count_cons]
      · have hn : st2.notifiedDown = true := by rw [hn2, hd2]; simp [hc]
        rw [hn]
        rw [if_pos rfl]
        have ihx := ih (c + 1) { st2 with retryDelay := min (st2.retryDelay * 2) 300 }
          (by show min (st2.retryDelay * 2) 300 = delayAt (c + 1)
              rw [hr2, hd1, delayAt_succ])
          (by show st2.notifiedDown = decide (c + 1 ≠ 0)
              rw [hn]; simp)
          (by intro _
              show st2.notifiedDown = true
              exact hn)
        rw [hn] at ihx
        rw [if_pos (by simp [hc])]
        refine ⟨?_, ?_, ?_⟩
        · simp only [sleepsOf, List.filterMap_append] at ihx ⊢
          rw [hccount2, rangeMap_delay_succ]
          rw [ihx.1]
          simp [hc, hr2, hd1, sleepsOf]
        · simp only [List.count_append] at ihx ⊢
          rw [ihx.2.1]
          simp [hc, List.count_cons]
        · simp only [List.count_append] at ihx ⊢
          rw [ihx.2.2]
          rw [show restoredCount (decide (c ≠ 0)) (Attempt.connectThenCrash :: rest)
            = (if decide (c ≠ 0) = true then 1 else 0) + restoredCount true rest from rfl]
          simp [hc, List.count_cons]

/-- **C7, counterexample.** After two crashes and a successful reconnect
(with its restored notice), the next crash opens a second outage: the claim
demands a fresh offline notice and a backoff reset to 30 s, but the code
sleeps 120 s and then 240 s and stays silent — the whole trace holds a
single offline notice and no 30-second sleep after the restored one. -/
theorem C7_counterexample :
    resilientListener
        [Attempt.crash, Attempt.crash, Attempt.connectThenCrash, Attempt.crash] =
      [LEvent.offline, LEvent.sleep 30, LEvent.sleep 60, LEvent.restored,
       LEvent.sleep 120, LEvent.sleep 240] ∧
    (resilientListener
        [Attempt.crash, Attempt.crash, Attempt.connectThenCrash, Attempt.crash]).count
      LEvent.offline = 1 := by
  decide

/-- **C7, amended.** Exactly one "Ingest offline" notice is sent for the
first outage of the process lifetime (crashes of later outages are
silent); the successive reconnect sleeps over the whole lifetime are
`30·2^k` capped at 300 s — 30, 60, 120, 240, 300, 300, … — and the delay
is never reset; every successful reconnect that follows at least one
earlier crash emits exactly one "Ingest restored" notice. -/
theorem C7_resilient_listener_amended (script : List Attempt) :
    sleepsOf (resilientListener script) =
      (List.range (crashCount script)).map delayAt ∧
    (resilientListener script).count LEvent.offline =
      (if crashCount script = 0 then 0 else 1) ∧
    (resilientListener script).count LEvent.restored = restoredCount false script := by
  have h := resilientRun_spec script 0 {} (by decide) (by decide)
    (fun hx => absurd hx (by decide))
  refine ⟨?_, ?_, ?_⟩
  · rw [show resilientListener script = resilientRun {} script from rfl, h.1]
    apply List.map_congr_left
    intro k _
    rw [Nat.zero_add]
  · rw [show resilientListener script = resilientRun {} script from rfl, h.2.1]
    by_cases hc : crashCount script = 0 <;> simp [hc]
  · rw [show resilientListener script = resilientRun {} script from rfl, h.2.2]
    congr 1

/-! ## Ingest: `save_message` (src/src/db.py 130-153) and `on_new_message`
(src/src/telegram_listener.py 232-357)

The `messages` table with its unique constraint on
`(telegram_msg_id, chat_id)` (the spec's `upstream_msg_id`), the `contacts`
table, and the whitelist/blacklist settings (their 60-second caches always
reflect the settings here — the embedded run does not change them).  The
`account` column is the one v4 addition the stale on-disk db.py lacks; its
conflict-handling (`ON CONFLICT … DO NOTHING RETURNING id`) is embedded
from db.py lines 142-153 unchanged.  The classifier dispatch and the
tracked-task check are recorded as outputs, not run (C1 embeds the
classifier separately); `brain.analyze_image` enters as the per-event
oracle field `visionDesc`. -/

structure MsgRow where
  id : Nat
  telegramMsgId : Int
  chatId : Int
  chatTitle : Str
  senderId : Int
  senderName : Str
  text : Str
  mediaType : Option Str
  timestamp : Int
  account : Str
  processed : Bool := false
deriving DecidableEq, Repr

structure IngestDB where
  messages : List MsgRow := []
  nextMsgId : Nat := 1
  contacts : List Int := []
  whitelist : List Int := []
  blacklist : List Int := []
deriving DecidableEq, Repr

/-- Does a row with the unique key `(telegram_msg_id, chat_id)` exist? -/
def keyPresent (db : IngestDB) (tmid cid : Int) : Bool :=
  db.messages.any (fun m => m.telegramMsgId == tmid && m.chatId == cid)

/-- `save_message`: insert with `ON CONFLICT (telegram_msg_id, chat_id) DO
NOTHING RETURNING id` — `none` and no change on a duplicate key. -/
def saveMessage (db : IngestDB) (tmid cid : Int) (chatTitle : Str) (senderId : Int)
    (senderName text : Str) (mediaType : Option Str) (timestamp : Int) (account : Str) :
    IngestDB × Option Nat :=
  if keyPresent db tmid cid then (db, none)
  else
    ({ db with
        messages := db.messages ++
          [{ id := db.nextMsgId, telegramMsgId := tmid, chatId := cid,
             chatTitle := chatTitle, senderId := senderId, senderName := senderName,
             text := text, mediaType := mediaType, timestamp := timestamp,
             account := account }],
        nextMsgId := db.nextMsgId + 1 }, some db.nextMsgId)

/-- `mark_message_processed`. -/
def markProcessed (db : IngestDB) (msgId : Nat) : IngestDB :=
  { db with messages := db.messages.map (fun m =>
      if m.id = msgId then { m with processed := true } else m) }

/-- One upstream event, with the per-event facts `on_new_message` reads. -/
structure InEvent where
  msgId : Int
  chatId : Int
  isService : Bool
  sticker : Bool
  gifNoText : Bool
  fwdFromChannel : Bool
  isPrivate : Bool
  senderId : Int
  senderName : Str
  senderIsBot : Bool
  senderIsChannel : Bool
  chatTitle : Str
  text : Str
  mediaType : Option Str
  timestamp : Int
  photo : Bool
  visionDesc : Option Str
deriving DecidableEq, Repr

/-- `_should_ignore` (src/src/telegram_listener.py 362-375). -/
def shouldIgnore (ev : InEvent) : Bool := ev.sticker || ev.gifNoText || ev.fwdFromChannel

/-- The externally visible outputs of one ingest step: a new-contact
notification, a classifier dispatch, an event-driven tracked-task check. -/
inductive IngestOut where
  | newContact (senderId : Int) (preview : Str)
  | classifyMsg (dbMsgId : Nat)
  | trackedCheck (chatId : Int)
deriving DecidableEq, Repr

/-- `"[photo: "`. -/
def photoTagChars : Str := ['[','p','h','o','t','o',':',' ']

/-- The message text after the media-placeholder substitution. -/
def substText (ev : InEvent) : Str :=
  if ev.text = [] then
    (match ev.mediaType with
     | some m => '[' :: (m ++ [']'])
     | none => [])
  else ev.text

/-- The message text after the B2 vision rewrite for photos in private
chats with no caption. -/
def effText (ev : InEvent) : Str :=
  if ev.photo = true ∧ ev.isPrivate = true ∧ ev.text = [] then
    (match ev.visionDesc with
     | some d => photoTagChars ++ d ++ [']']
     | none => substText ev)
  else substText ev

/-- `on_new_message` after a successful save (src/src/telegram_listener.py
314-354): the new-contact check, the channel cutoff, the classifier
dispatch with the event-driven tracked-task check for non-owner senders,
and `mark_message_processed`.  `config.is_owner`, absent from the stale
on-disk config.py, is the spec's comparison with the single configured
owner id. -/
def ingestDispatch (ownerId botId : Int) (db1 : IngestDB) (ev : InEvent) (dbMsgId : Nat) :
    IngestDB × List IngestOut :=
  let isBotChat := ev.isPrivate = true ∧ (ev.senderId = botId ∨ ev.chatId = botId)
  let contactStep :=
    if ev.chatId ∈ db1.whitelist ∧ ev.senderId ≠ 0 ∧ ev.senderId ≠ ownerId ∧
        ¬isBotChat ∧ ev.senderIsChannel = false ∧ ev.senderId ∉ db1.contacts then
      ({ db1 with contacts := db1.contacts ++ [ev.senderId] },
       [IngestOut.newContact ev.senderId ((effText ev).take 100)])
    else (db1, ([] : List IngestOut))
  if ev.senderIsChannel = true then (markProcessed contactStep.1 dbMsgId, contactStep.2)
  else if ev.isPrivate = true ∧ ¬isBotChat ∧ 5 < (effText ev).length then
    if ev.senderId ≠ ownerId then
      (markProcessed contactStep.1 dbMsgId,
       contactStep.2 ++ [IngestOut.classifyMsg dbMsgId, IngestOut.trackedCheck ev.chatId])
    else
      (markProcessed contactStep.1 dbMsgId, contactStep.2 ++ [IngestOut.classifyMsg dbMsgId])
  else (markProcessed contactStep.1 dbMsgId, contactStep.2)

/-- `on_new_message` (src/src/telegram_listener.py 232-357). -/
def onNewMessage (ownerId botId : Int) (account : Str) (db : IngestDB) (ev : InEvent) :
    IngestDB × List IngestOut :=
  if ev.isService = true then (db, [])
  else if shouldIgnore ev = true then (db, [])
  else if ev.chatId ∉ db.whitelist ∧ ev.isPrivate = false then (db, [])
  else if ev.isPrivate = true ∧ ev.senderIsBot = true then (db, [])
  else if ev.chatId ∈ db.blacklist ∨ ev.senderId ∈ db.blacklist then (db, [])
  else if substText ev = [] then (db, [])
  else
    match saveMessage db ev.msgId ev.chatId ev.chatTitle ev.senderId ev.senderName
      (effText ev) ev.mediaType ev.timestamp account with
    | (db0, none) => (db0, [])
    | (db1, some dbMsgId) => ingestDispatch ownerId botId db1 ev dbMsgId

/-- A stream of events, processed in order; outputs concatenate. -/
def processStream (ownerId botId : Int) (account : Str) (db : IngestDB) :
    List InEvent → IngestDB × List IngestOut
  | [] => (db, [])
  | ev :: rest =>
    let r := onNewMessage ownerId botId account db ev
    let r2 := processStream ownerId botId account r.1 rest
    (r2.1, r.2 ++ r2.2)

/-- No two stored rows share the `(telegram_msg_id, chat_id)` key — the
unique constraint of the `messages` table. -/
@[reducible] def uniqueKeys (db : IngestDB) : Prop :=
  db.messages.Pairwise (fun m1 m2 =>
    ¬(m1.telegramMsgId = m2.telegramMsgId ∧ m1.chatId = m2.chatId))

theorem keyPresent_congr {db db' : IngestDB} (h : db.messages = db'.messages)
    (t c : Int) : keyPresent db t c = keyPresent db' t c := by
  unfold keyPresent
  rw [h]

theorem uniqueKeys_congr {db db' : IngestDB} (h : db.messages = db'.messages) :
    uniqueKeys db ↔ uniqueKeys db' := by
  unfold uniqueKeys
  rw [h]

theorem markRow_key (m : MsgRow) (i : Nat) :
    ((if m.id = i then { m with processed := true } else m) : MsgRow).telegramMsgId
        = m.telegramMsgId ∧
    ((if m.id = i then { m with processed := true } else m) : MsgRow).chatId = m.chatId := by
  split <;> exact ⟨rfl, rfl⟩

theorem keyPresent_mark (db : IngestDB) (i : Nat) (t c : Int) :
    keyPresent (markProcessed db i) t c = keyPresent db t c := by
  unfold markProcessed keyPresent
  dsimp only
  rw [List.any_map]
  congr 1
  funext m
  rw [Function.comp_apply, (markRow_key m i).1, (markRow_key m i).2]

theorem uniqueKeys_mark (db : IngestDB) (i : Nat) (h : uniqueKeys db) :
    uniqueKeys (markProcessed db i) := by
  unfold uniqueKeys markProcessed at *
  dsimp only
  rw [List.pairwise_map]
  refine h.imp ?_
  intro m1 m2 h12
  rw [(markRow_key m1 i).1, (markRow_key m1 i).2, (markRow_key m2 i).1, (markRow_key m2 i).2]
  exact h12

theorem ingestDispatch_state (o b : Int) (db1 : IngestDB) (ev : InEvent) (i : Nat) :
    (ingestDispatch o b db1 ev i).1.messages = (markProcessed db1 i).messages ∧
    (ingestDispatch o b db1 ev i).1.whitelist = db1.whitelist ∧
    (ingestDispatch o b db1 ev i).1.blacklist = db1.blacklist := by
  unfold ingestDispatch
  dsimp only
  split_ifs <;> exact ⟨rfl, rfl, rfl⟩

/-- A duplicate `(telegram_msg_id, chat_id)` key makes the whole handler a
no-op with empty output. -/
theorem onNewMessage_dup (o b : Int) (a : Str) (db : IngestDB) (ev : InEvent)
    (hkey : keyPresent db ev.msgId ev.chatId = true) :
    onNewMessage o b a db ev = (db, []) := by
  unfold onNewMessage
  by_cases h1 : ev.isService = true
  · rw [if_pos h1]
  rw [if_neg h1]
  by_cases h2 : shouldIgnore ev = true
  · rw [if_pos h2]
  rw [if_neg h2]
  by_cases h3 : ev.chatId ∉ db.whitelist ∧ ev.isPrivate = false
  · rw [if_pos h3]
  rw [if_neg h3]
  by_cases h4 : ev.isPrivate = true ∧ ev.senderIsBot = true
  · rw [if_pos h4]
  rw [if_neg h4]
  by_cases h5 : ev.chatId ∈ db.blacklist ∨ ev.senderId ∈ db.blacklist
  · rw [if_pos h5]
  rw [if_neg h5]
  by_cases h6 : substText ev = []
  · rw [if_pos h6]
  rw [if_neg h6]
  unfold saveMessage
  rw [if_pos hkey]

theorem onNewMessage_preserves (o b : Int) (a : Str) (db : IngestDB) (ev : InEvent) :
    (onNewMessage o b a db ev).1.whitelist = db.whitelist ∧
    (onNewMessage o b a db ev).1.blacklist = db.blacklist ∧
    (∀ t c, keyPresent db t c = true → keyPresent (onNewMessage o b a db ev).1 t c = true) ∧
    (uniqueKeys db → uniqueKeys (onNewMessage o b a db ev).1) := by
  unfold onNewMessage
  by_cases h1 : ev.isService = true
  · rw [if_pos h1]; exact ⟨rfl, rfl, fun _ _ h => h, id⟩
  rw [if_neg h1]
  by_cases h2 : shouldIgnore ev = true
  · rw [if_pos h2]; exact ⟨rfl, rfl, fun _ _ h => h, id⟩
  rw [if_neg h2]
  by_cases h3 : ev.chatId ∉ db.whitelist ∧ ev.isPrivate = false
  · rw [if_pos h3]; exact ⟨rfl, rfl, fun _ _ h => h, id⟩
  rw [if_neg h3]
  by_cases h4 : ev.isPrivate = true ∧ ev.senderIsBot = true
  · rw [if_pos h4]; exact ⟨rfl, rfl, fun _ _ h => h, id⟩
  rw [if_neg h4]
  by_cases h5 : ev.chatId ∈ db.blacklist ∨ ev.senderId ∈ db.blacklist
  · rw [if_pos h5]; exact ⟨rfl, rfl, fun _ _ h => h, id⟩
  rw [if_neg h5]
  by_cases h6 : substText ev = []
  · rw [if_pos h6]; exact ⟨rfl, rfl, fun _ _ h => h, id⟩
  rw [if_neg h6]
  unfold saveMessage
  by_cases hkey : keyPresent db ev.msgId ev.chatId = true
  · rw [if_pos hkey]; exact ⟨rfl, rfl, fun _ _ h => h, id⟩
  rw [if_neg hkey]
  rw [Bool.not_eq_true] at hkey
  refine ⟨(ingestDispatch_state o b _ ev _).2.1, (ingestDispatch_state o b _ ev _).2.2, ?_, ?_⟩
  · intro t c h
    rw [keyPresent_congr (ingestDispatch_state o b _ ev _).1 t c, keyPresent_mark]
    unfold keyPresent at h ⊢
    dsimp only
    rw [List.any_append]
    rw [h]
    rfl
  · intro hu
    rw [uniqueKeys_congr (ingestDispatch_state o b _ ev _).1]
    apply uniqueKeys_mark
    unfold uniqueKeys at hu ⊢
    dsimp only
    rw [List.pairwise_append]
    refine ⟨hu, List.pairwise_singleton _ _, ?_⟩
    intro m hm m' hm'
    rw [List.mem_singleton] at hm'
    subst hm'
    unfold keyPresent at hkey
    rw [List.any_eq_false] at hkey
    have := hkey m hm
    simp only [Bool.and_eq_true, beq_iff_eq, not_and] at this
    dsimp only
    intro hc
    exact this hc.1 hc.2

/-- One step either is a settings-determined drop — in which case it drops
at every store with the same whitelist and blacklist — or leaves the event
key present in the store. -/
theorem onNewMessage_cases (o b : Int) (a : Str) (db : IngestDB) (ev : InEvent) :
    (∀ db2 : IngestDB, db2.whitelist = db.whitelist → db2.blacklist = db.blacklist →
      onNewMessage o b a db2 ev = (db2, [])) ∨
    keyPresent (onNewMessage o b a db ev).1 ev.msgId ev.chatId = true := by
  by_cases h1 : ev.isService = true
  · left; intro db2 _ _; unfold onNewMessage; rw [if_pos h1]
  by_cases h2 : shouldIgnore ev = true
  · left; intro db2 _ _; unfold onNewMessage; rw [if_neg h1, if_pos h2]
  by_cases h3 : ev.chatId ∉ db.whitelist ∧ ev.isPrivate = false
  · left; intro db2 hwl _; unfold onNewMessage
    have h3' : ev.chatId ∉ db2.whitelist ∧ ev.isPrivate = false := by rw [hwl]; exact h3
    rw [if_neg h1, if_neg h2, if_pos h3']
  by_cases h4 : ev.isPrivate = true ∧ ev.senderIsBot = true
  · left; intro db2 hwl _; unfold onNewMessage
    have h3' : ¬(ev.chatId ∉ db2.whitelist ∧ ev.isPrivate = false) := by rw [hwl]; exact h3
    rw [if_neg h1, if_neg h2, if_neg h3', if_pos h4]
  by_cases h5 : ev.chatId ∈ db.blacklist ∨ ev.senderId ∈ db.blacklist
  · left; intro db2 hwl hbl; unfold onNewMessage
    have h3' : ¬(ev.chatId ∉ db2.whitelist ∧ ev.isPrivate = false) := by rw [hwl]; exact h3
    have h5' : ev.chatId ∈ db2.blacklist ∨ ev.senderId ∈ db2.blacklist := by rw [hbl]; exact h5
    rw [if_neg h1, if_neg h2, if_neg h3', if_neg h4, if_pos h5']
  by_cases h6 : substText ev = []
  · left; intro db2 hwl hbl; unfold onNewMessage
    have h3' : ¬(ev.chatId ∉ db2.whitelist ∧ ev.isPrivate = false) := by rw [hwl]; exact h3
    have h5' : ¬(ev.chatId ∈ db2.blacklist ∨ ev.senderId ∈ db2.blacklist) := by
      rw [hbl]; exact h5
    rw [if_neg h1, if_neg h2, if_neg h3', if_neg h4, if_neg h5', if_pos h6]
  right
  unfold onNewMessage
  rw [if_neg h1, if_neg h2, if_neg h3, if_neg h4, if_neg h5, if_neg h6]
  unfold saveMessage
  by_cases hkey : keyPresent db ev.msgId ev.chatId = true
  · rw [if_pos hkey]
    exact hkey
  · rw [if_neg hkey]
    rw [keyPresent_congr (ingestDispatch_state o b _ ev _).1 ev.msgId ev.chatId,
      keyPresent_mark]
    unfold keyPresent
    dsimp only
    rw [List.any_append]
    simp

theorem processStream_settings (o b : Int) (a : Str) (evs : List InEvent) :
    ∀ db : IngestDB, (processStream o b a db evs).1.whitelist = db.whitelist ∧
      (processStream o b a db evs).1.blacklist = db.blacklist := by
  induction evs with
  | nil => exact fun db => ⟨rfl, rfl⟩
  | cons e rest ih =>
    intro db
    refine ⟨(ih (onNewMessage o b a db e).1).1.trans (onNewMessage_preserves o b a db e).1,
      (ih (onNewMessage o b a db e).1).2.trans (onNewMessage_preserves o b a db e).2.1⟩

theorem processStream_keyMono (o b : Int) (a : Str) (evs : List InEvent) :
    ∀ (db : IngestDB) (t c : Int), keyPresent db t c = true →
      keyPresent (processStream o b a db evs).1 t c = true := by
  induction evs with
  | nil => exact fun _ _ _ h => h
  | cons e rest ih =>
    intro db t c h
    exact ih (onNewMessage o b a db e).1 t c
      ((onNewMessage_preserves o b a db e).2.2.1 t c h)

theorem processStream_unique (o b : Int) (a : Str) (evs : List InEvent) :
    ∀ db : IngestDB, uniqueKeys db → uniqueKeys (processStream o b a db evs).1 := by
  induction evs with
  | nil => exact fun _ h => h
  | cons e rest ih =>
    intro db h
    exact ih (onNewMessage o b a db e).1 ((onNewMessage_preserves o b a db e).2.2.2 h)

/-- Every reachable event either is dropped by the per-event filters (a fact
that only depends on the settings) or has its key recorded in the store by
the end of the stream. -/
theorem processStream_covers (o b : Int) (a : Str) (evs : List InEvent) :
    ∀ db : IngestDB, ∀ ev ∈ evs,
      (∀ db2 : IngestDB, db2.whitelist = db.whitelist → db2.blacklist = db.blacklist →
        onNewMessage o b a db2 ev = (db2, [])) ∨
      keyPresent (processStream o b a db evs).1 ev.msgId ev.chatId = true := by
  induction evs with
  | nil => intro db ev h; cases h
  | cons e rest ih =>
    intro db ev hmem
    rcases List.mem_cons.mp hmem with rfl | hmem'
    · rcases onNewMessage_cases o b a db ev with hd | hk
      · exact Or.inl hd
      · exact Or.inr (processStream_keyMono o b a rest _ _ _ hk)
    · rcases ih (onNewMessage o b a db e).1 ev hmem' with hd | hk
      · left
        intro db2 hwl hbl
        exact hd db2 (hwl.trans (onNewMessage_preserves o b a db e).1.symm)
          (hbl.trans (onNewMessage_preserves o b a db e).2.1.symm)
      · exact Or.inr hk

theorem processStream_noop (o b : Int) (a : Str) (dbB : IngestDB) :
    ∀ evs : List InEvent,
      (∀ ev ∈ evs,
        (∀ db2 : IngestDB, db2.whitelist = dbB.whitelist → db2.blacklist = dbB.blacklist →
          onNewMessage o b a db2 ev = (db2, [])) ∨
        keyPresent dbB ev.msgId ev.chatId = true) →
      processStream o b a dbB evs = (dbB, []) := by
  intro evs
  induction evs with
  | nil => intro _; rfl
  | cons e rest ih =>
    intro h
    have he : onNewMessage o b a dbB e = (dbB, []) := by
      rcases h e (List.mem_cons_self e rest) with hd | hk
      · exact hd dbB rfl rfl
      · exact onNewMessage_dup o b a dbB e hk
    have hrest : processStream o b a dbB rest = (dbB, []) :=
      ih (fun ev hmem => h ev (List.mem_cons_of_mem e hmem))
    show ((processStream o b a (onNewMessage o b a dbB e).1 rest).1,
      (onNewMessage o b a dbB e).2 ++ (processStream o b a (onNewMessage o b a dbB e).1 rest).2)
      = (dbB, [])
    rw [he]
    dsimp only
    rw [hrest]
    rfl

/-- Replaying a fully ingested stream is a no-op on the store and produces
no outputs. -/
theorem processStream_replay (o b : Int) (a : Str) (db : IngestDB) (evs : List InEvent) :
    processStream o b a (processStream o b a db evs).1 evs
      = ((processStream o b a db evs).1, []) := by
  apply processStream_noop
  intro ev hmem
  rcases processStream_covers o b a evs db ev hmem with hd | hk
  · left
    intro db2 hwl hbl
    exact hd db2 (hwl.trans (processStream_settings o b a evs db).1)
      (hbl.trans (processStream_settings o b a evs db).2)
  · exact Or.inr hk

/-- C6: saving a message whose `(telegram_msg_id, chat_id)` pair already
exists changes nothing — `save_message` inserts no row and returns `none`,
and `on_new_message` then stops with no classification and no notification;
replaying an already-ingested stream is a no-op, and the key pair appears
at most once in the store. -/
theorem C6_save_message_idempotent (o b : Int) (a : Str) (db : IngestDB) (ev : InEvent)
    (evs : List InEvent) :
    (keyPresent db ev.msgId ev.chatId = true →
      saveMessage db ev.msgId ev.chatId ev.chatTitle ev.senderId ev.senderName
        (effText ev) ev.mediaType ev.timestamp a = (db, none) ∧
      onNewMessage o b a db ev = (db, [])) ∧
    (uniqueKeys db → uniqueKeys (processStream o b a db evs).1) ∧
    processStream o b a (processStream o b a db evs).1 evs
      = ((processStream o b a db evs).1, []) :=
  ⟨fun hkey => ⟨by unfold saveMessage; rw [if_pos hkey],
      onNewMessage_dup o b a db ev hkey⟩,
   fun hu => processStream_unique o b a evs db hu,
   processStream_replay o b a db evs⟩

def c6Row : MsgRow :=
  { id := 1, telegramMsgId := 5, chatId := 7, chatTitle := [], senderId := 3,
    senderName := [], text := ['h','i'], mediaType := none, timestamp := 0, account := [] }

def c6Db : IngestDB :=
  { messages := [c6Row], nextMsgId := 2, contacts := [], whitelist := [7], blacklist := [] }

def c6Ev : InEvent :=
  { msgId := 5, chatId := 7, isService := false, sticker := false, gifNoText := false,
    fwdFromChannel := false, isPrivate := true, senderId := 3, senderName := [],
    senderIsBot := false, senderIsChannel := false, chatTitle := [],
    text := ['h','e','l','l','o','!'], mediaType := none, timestamp := 1,
    photo := false, visionDesc := none }

theorem C6_save_message_idempotent_witness :
    onNewMessage 1 2 [] c6Db c6Ev = (c6Db, []) ∧
    uniqueKeys (processStream 1 2 [] c6Db [c6Ev]).1 :=
  ⟨((C6_save_message_idempotent 1 2 [] c6Db c6Ev []).1 (by decide)).2,
   (C6_save_message_idempotent 1 2 [] c6Db c6Ev [c6Ev]).2.1 (by decide)⟩

/-! ## Owner-only bot access (src/src/telegram_bot.py)

Every `@router.message` handler in telegram_bot.py is wrapped in
`@owner_only` (75-82), and every `@router.callback_query` handler opens
with the identical inline test
`if callback.from_user.id != config.TELEGRAM_OWNER_ID: return`
(lines 473, 484, 493, 502, 511, 520, 529, 539, 569, 586, 605, 615, 627,
691, 727, 775, 827, 934, 981, 1003, 1024, 1033, 1111, 1132, 1218, 1264,
1285, 1306, 1315), so aiogram's dispatch is `ownerOnly` applied pointwise
to the unguarded handler bodies; the router ignores unmatched updates by
itself.  Handler bodies are state transformers over an abstract state `σ`
that also emit outbound messages. -/

structure BotEvent where
  fromUserId : Int
  payload : Str
deriving DecidableEq, Repr

/-- `owner_only` (src/src/telegram_bot.py 75-82): return immediately —
no store access, no outbound message — unless the update comes from the
configured owner. -/
def ownerOnly {σ : Type} (ownerId : Int) (handler : BotEvent → σ → σ × List Str)
    (ev : BotEvent) (s : σ) : σ × List Str :=
  if ev.fromUserId ≠ ownerId then (s, [])
  else handler ev s

/-- `f"Задача #{task_id} выполнена"`. -/
def taskDoneAnswer (taskId : Int) : Str :=
  "Задача #".data ++ intRepr taskId ++ " выполнена".data

/-- The body of `cb_task_done` after its guard (src/src/telegram_bot.py
486-488): parse the task id from the `"task_done:<id>"` payload, run
`complete_task`, and answer the callback.  A malformed payload raises in
`int()`, aborting the handler with no effect. -/
def cbTaskDone (now : Int) (ev : BotEvent) (db : TasksDB) : TasksDB × List Str :=
  match (ev.payload.splitOn ':').tail with
  | [] => (db, [])
  | part :: _ =>
    match parseIntPy part with
    | none => (db, [])
    | some tid => (completeTask db tid.toNat now, [taskDoneAnswer tid])

/-- One router dispatch: the filters pick the unguarded body `route ev`,
and the guard wraps it. -/
def botStep {σ : Type} (ownerId : Int) (route : BotEvent → BotEvent → σ → σ × List Str)
    (s : σ) (ev : BotEvent) : σ × List Str :=
  ownerOnly ownerId (route ev) ev s

/-- A run of the bot over a stream of inbound updates; outputs concatenate. -/
def botRun {σ : Type} (ownerId : Int) (route : BotEvent → BotEvent → σ → σ × List Str)
    (s : σ) : List BotEvent → σ × List Str
  | [] => (s, [])
  | ev :: rest =>
    let r := botStep ownerId route s ev
    let r2 := botRun ownerId route r.1 rest
    (r2.1, r.2 ++ r2.2)

theorem botStep_nonowner {σ : Type} (ownerId : Int)
    (route : BotEvent → BotEvent → σ → σ × List Str) (s : σ) (ev : BotEvent)
    (h : ev.fromUserId ≠ ownerId) : botStep ownerId route s ev = (s, []) := by
  unfold botStep ownerOnly
  rw [if_pos h]

theorem botRun_skip {σ : Type} (ownerId : Int)
    (route : BotEvent → BotEvent → σ → σ × List Str) (ev : BotEvent)
    (h : ev.fromUserId ≠ ownerId) :
    ∀ (pre post : List BotEvent) (s : σ),
      botRun ownerId route s (pre ++ ev :: post) = botRun ownerId route s (pre ++ post) := by
  intro pre
  induction pre with
  | nil =>
    intro post s
    show ((botRun ownerId route (botStep ownerId route s ev).1 post).1,
      (botStep ownerId route s ev).2 ++
        (botRun ownerId route (botStep ownerId route s ev).1 post).2)
      = botRun ownerId route s post
    rw [botStep_nonowner ownerId route s ev h]
    dsimp only
    rw [List.nil_append]
  | cons e pre ih =>
    intro post s
    show ((botRun ownerId route (botStep ownerId route s e).1 (pre ++ ev :: post)).1,
      (botStep ownerId route s e).2 ++
        (botRun ownerId route (botStep ownerId route s e).1 (pre ++ ev :: post)).2)
      = ((botRun ownerId route (botStep ownerId route s e).1 (pre ++ post)).1,
      (botStep ownerId route s e).2 ++
        (botRun ownerId route (botStep ownerId route s e).1 (pre ++ post)).2)
    rw [ih post (botStep ownerId route s e).1]

/-- C9: an inbound bot update whose `from_user.id` differs from the
configured owner id is dropped by the guard with no state change and no
outbound message, and a run with such an update inserted anywhere equals
the run without it — same final state, same outputs. -/
theorem C9_owner_only_dropped {σ : Type} (ownerId : Int)
    (route : BotEvent → BotEvent → σ → σ × List Str) (s : σ) (ev : BotEvent)
    (pre post : List BotEvent) (hne : ev.fromUserId ≠ ownerId) :
    botStep ownerId route s ev = (s, []) ∧
    botRun ownerId route s (pre ++ ev :: post) = botRun ownerId route s (pre ++ post) :=
  ⟨botStep_nonowner ownerId route s ev hne, botRun_skip ownerId route ev hne pre post s⟩

def c9Ev : BotEvent := { fromUserId := 2, payload := "task_done:17".data }

def c9Db : TasksDB := { tasks := [], nextTaskId := 1 }

theorem C9_owner_only_dropped_witness :
    botStep 1 (fun _ => cbTaskDone 0) c9Db c9Ev = (c9Db, []) ∧
    botRun 1 (fun _ => cbTaskDone 0) c9Db [c9Ev]
      = botRun 1 (fun _ => cbTaskDone 0) c9Db [] :=
  ⟨(C9_owner_only_dropped 1 (fun _ => cbTaskDone 0) c9Db c9Ev [] [] (by decide)).1,
   (C9_owner_only_dropped 1 (fun _ => cbTaskDone 0) c9Db c9Ev [] [] (by decide)).2⟩

end Jarvis
